import Mathlib

set_option maxHeartbeats 1000000

/-!
Verification development for the PostC bootstrap toolchain
(src/src/bootstrap/compiler/compiler.py and src/src/bootstrap/vm/vm.py).

The Python sources are shallowly embedded:
* Python strings are `List Char`; Python ints are `ℤ` (or `ℕ` where the
  source value is a length/index); Python floats are modelled as `ℚ`
  (every float value the claims exercise, such as 3.5, is an exact dyadic
  rational, so this is faithful on the claims' inputs).
* Python lists and dicts become Lean lists / association lists; the
  operand stack and the call stack keep the Python orientation
  (bottom of the stack at the head of the list; push/pop at the end).
* Fallible code returns `Except`; Python-level exceptions that are not
  `VmError` / compiler errors (UnboundLocalError, AttributeError,
  IndexError, TypeError) are modelled as distinct host-error values.
* Recursion over the syntax tree is driven by an explicit fuel counter so
  every definition is structurally recursive and kernel-evaluable; running
  out of fuel is an error, so all theorems conditioned on a successful run
  are unaffected.
-/

namespace PostC

/-- Runtime / constant-pool value, from the `Union[int, float, str, bool]`
annotations plus the array (`list`) and dictionary (`dict`) values the VM
creates at runtime; `vNone` is Python `None` (an uninitialized array slot). -/
inductive Value where
  | vInt : ℤ → Value
  | vFloat : ℚ → Value
  | vBool : Bool → Value
  | vStr : List Char → Value
  | vNone : Value
  | vArr : List Value → Value
  | vDict : List (Value × Value) → Value

/-- Work items for the single fueled recursion implementing Python `==`. -/
inductive EqTask where
  | vals : Value → Value → EqTask
  | lists : List Value → List Value → EqTask
  | pairs : List (Value × Value) → List (Value × Value) → EqTask
  | find : Value → Value → List (Value × Value) → EqTask

/-- Python `==` on runtime values, as one fueled recursion.  Numbers
(`int`, `float`, `bool` — in Python `bool` is a subclass of `int`, with
`True == 1` and `False == 0`) compare by numeric value across types;
strings compare by content; lists compare elementwise; dicts compare by
length plus key lookup.  The fuel only limits nesting depth of containers;
all scalar comparisons ignore it, and the wrapper `pyEq` supplies a fuel
that exceeds the recursion depth of any pair of values. -/
def pyEqGo : ℕ → EqTask → Bool
  | _, .vals (.vInt x) (.vInt y) => x == y
  | _, .vals (.vInt x) (.vFloat y) => (x : ℚ) == y
  | _, .vals (.vInt x) (.vBool b) => x == (if b then 1 else 0)
  | _, .vals (.vFloat x) (.vInt y) => x == ((y : ℚ))
  | _, .vals (.vFloat x) (.vFloat y) => x == y
  | _, .vals (.vFloat x) (.vBool b) => x == (if b then (1 : ℚ) else 0)
  | _, .vals (.vBool a) (.vInt y) => (if a then (1 : ℤ) else 0) == y
  | _, .vals (.vBool a) (.vFloat y) => (if a then (1 : ℚ) else 0) == y
  | _, .vals (.vBool a) (.vBool b) => a == b
  | _, .vals (.vStr s) (.vStr t) => s == t
  | _, .vals .vNone .vNone => true
  | fuel + 1, .vals (.vArr a) (.vArr b) => pyEqGo fuel (.lists a b)
  | fuel + 1, .vals (.vDict a) (.vDict b) =>
      a.length == b.length && pyEqGo fuel (.pairs a b)
  | _, .vals _ _ => false
  | _, .lists [] [] => true
  | fuel + 1, .lists (x :: xs) (y :: ys) =>
      pyEqGo fuel (.vals x y) && pyEqGo fuel (.lists xs ys)
  | _, .lists _ _ => false
  | _, .pairs [] _ => true
  | fuel + 1, .pairs ((k, v) :: rest) bs =>
      pyEqGo fuel (.find k v bs) && pyEqGo fuel (.pairs rest bs)
  | _, .pairs _ _ => false
  | _, .find _ _ [] => false
  | fuel + 1, .find k v ((k2, v2) :: rest) =>
      (pyEqGo fuel (.vals k k2) && pyEqGo fuel (.vals v v2))
        || pyEqGo fuel (.find k v rest)
  | _, .find _ _ _ => false

/-- Executable size of a value (counts constructors; list tails add one),
used only to pick a sufficient fuel for `pyEqGo`. -/
def Value.pySize : Value → ℕ
  | .vArr l => 1 + sizeL l
  | .vDict d => 1 + sizeP d
  | _ => 1
where
  sizeL : List Value → ℕ
    | [] => 1
    | x :: xs => Value.pySize x + sizeL xs
  sizeP : List (Value × Value) → ℕ
    | [] => 1
    | (k, v) :: r => Value.pySize k + Value.pySize v + sizeP r

/-- Python `==` on two runtime values (total wrapper around `pyEqGo`;
every recursive step of `pyEqGo` strictly decreases the summed `pySize`
of its arguments, so the chosen fuel never runs out). -/
def pyEq (a b : Value) : Bool := pyEqGo (a.pySize + b.pySize) (.vals a b)

/-- Literal (constant-pool) values: integer, float, string or boolean. -/
def Value.isScalar : Value → Prop
  | .vInt _ => True
  | .vFloat _ => True
  | .vBool _ => True
  | .vStr _ => True
  | _ => False

/-- Opcode enumeration, identical in compiler.py and vm.py. -/
inductive Opcode where
  | LOAD_CONST | LOAD_TRUE | LOAD_FALSE | LOAD_STRING
  | LOAD_VAR | STORE_VAR
  | DUP | DROP | SWAP | OVER | ROT
  | ADD | SUB | MUL | DIV
  | EQ | NE | LT | GT | LE | GE
  | JUMP | JUMP_IF_FALSE | CALL | RETURN
  | PRINT | READ_STDIN | READ_FILE
  | CREATE_ARRAY | LOAD_ARRAY | STORE_ARRAY | ARRAY_LENGTH
  | CREATE_DICT | LOAD_DICT | STORE_DICT | DICT_HAS_KEY | DICT_LENGTH
  | STRING_LENGTH | STRING_CONCAT | STRING_SUBSTRING | STRING_INDEXOF
  | HALT
  deriving DecidableEq

/-- The `value` string of each Opcode enum member. -/
def Opcode.pyName : Opcode → List Char
  | .LOAD_CONST => ("LOAD_CONST").toList
  | .LOAD_TRUE => ("LOAD_TRUE").toList
  | .LOAD_FALSE => ("LOAD_FALSE").toList
  | .LOAD_STRING => ("LOAD_STRING").toList
  | .LOAD_VAR => ("LOAD_VAR").toList
  | .STORE_VAR => ("STORE_VAR").toList
  | .DUP => ("DUP").toList
  | .DROP => ("DROP").toList
  | .SWAP => ("SWAP").toList
  | .OVER => ("OVER").toList
  | .ROT => ("ROT").toList
  | .ADD => ("ADD").toList
  | .SUB => ("SUB").toList
  | .MUL => ("MUL").toList
  | .DIV => ("DIV").toList
  | .EQ => ("EQ").toList
  | .NE => ("NE").toList
  | .LT => ("LT").toList
  | .GT => ("GT").toList
  | .LE => ("LE").toList
  | .GE => ("GE").toList
  | .JUMP => ("JUMP").toList
  | .JUMP_IF_FALSE => ("JUMP_IF_FALSE").toList
  | .CALL => ("CALL").toList
  | .RETURN => ("RETURN").toList
  | .PRINT => ("PRINT").toList
  | .READ_STDIN => ("READ_STDIN").toList
  | .READ_FILE => ("READ_FILE").toList
  | .CREATE_ARRAY => ("CREATE_ARRAY").toList
  | .LOAD_ARRAY => ("LOAD_ARRAY").toList
  | .STORE_ARRAY => ("STORE_ARRAY").toList
  | .ARRAY_LENGTH => ("ARRAY_LENGTH").toList
  | .CREATE_DICT => ("CREATE_DICT").toList
  | .LOAD_DICT => ("LOAD_DICT").toList
  | .STORE_DICT => ("STORE_DICT").toList
  | .DICT_HAS_KEY => ("DICT_HAS_KEY").toList
  | .DICT_LENGTH => ("DICT_LENGTH").toList
  | .STRING_LENGTH => ("STRING_LENGTH").toList
  | .STRING_CONCAT => ("STRING_CONCAT").toList
  | .STRING_SUBSTRING => ("STRING_SUBSTRING").toList
  | .STRING_INDEXOF => ("STRING_INDEXOF").toList
  | .HALT => ("HALT").toList

/-- Opcode member list in definition order (for `Opcode(opcode_str)`). -/
def opcodeMembers : List Opcode :=
  [.LOAD_CONST, .LOAD_TRUE, .LOAD_FALSE, .LOAD_STRING,
   .LOAD_VAR, .STORE_VAR,
   .DUP, .DROP, .SWAP, .OVER, .ROT,
   .ADD, .SUB, .MUL, .DIV,
   .EQ, .NE, .LT, .GT, .LE, .GE,
   .JUMP, .JUMP_IF_FALSE, .CALL, .RETURN,
   .PRINT, .READ_STDIN, .READ_FILE,
   .CREATE_ARRAY, .LOAD_ARRAY, .STORE_ARRAY, .ARRAY_LENGTH,
   .CREATE_DICT, .LOAD_DICT, .STORE_DICT, .DICT_HAS_KEY, .DICT_LENGTH,
   .STRING_LENGTH, .STRING_CONCAT, .STRING_SUBSTRING, .STRING_INDEXOF,
   .HALT]

/-- Python `Opcode(opcode_str)`: select the enum member with the given
value string ("Unknown opcode" becomes `none`). -/
def opcodeOfName (s : List Char) : Option Opcode :=
  opcodeMembers.find? (fun op => op.pyName == s)

/-- Model of Python whitespace (for `str.strip`, `str.isspace`). -/
def pyIsSpace (c : Char) : Bool :=
  c == ' ' || c == '\t' || c == '\n' || c == '\r' || c == '\x0b' || c == '\x0c'

/-- Decimal digit character for a digit value below ten (the catch-all
branch is never reached by callers, which always pass digits of base 10). -/
def chrOfDigit : ℕ → Char
  | 0 => '0' | 1 => '1' | 2 => '2' | 3 => '3' | 4 => '4'
  | 5 => '5' | 6 => '6' | 7 => '7' | 8 => '8' | 9 => '9'
  | _ => '0'

/-- Numeric value of a decimal digit character. -/
def digitVal (c : Char) : ℕ := c.toNat - 48

/-- Accumulate the value of a big-endian run of decimal digit characters
(the arithmetic core of Python `int(..)` on a digit string). -/
def parseAcc (a : ℕ) (s : List Char) : ℕ :=
  s.foldl (fun x c => 10 * x + digitVal c) a

/-- Decimal representation of a natural number, as Python `str` renders a
non-negative `int`. -/
def natChars (n : ℕ) : List Char :=
  if n = 0 then ['0'] else ((Nat.digits 10 n).reverse.map chrOfDigit)

/-- Python `str` on an `int` (sign plus decimal digits). -/
def intChars (z : ℤ) : List Char :=
  if z < 0 then '-' :: natChars z.natAbs else natChars z.toNat

/-- Model of Python `int(s)` restricted to an optional sign followed by
decimal digits (whitespace trimming and underscore separators of the full
builtin never arise on this pipeline's inputs). -/
def pyNatOfChars (s : List Char) : Option ℕ :=
  if s ≠ [] ∧ s.all Char.isDigit then some (parseAcc 0 s) else none

/-- Python `int(s)` (see `pyNatOfChars`); fails with `none` where the
builtin raises `ValueError`. -/
def pyIntOfChars (s : List Char) : Option ℤ :=
  match s with
  | [] => none
  | c :: rest =>
    if c == '-' then (pyNatOfChars rest).map (fun n => -(n : ℤ))
    else if c == '+' then (pyNatOfChars rest).map (fun n => (n : ℤ))
    else (pyNatOfChars (c :: rest)).map (fun n => (n : ℤ))

/-- Magnitude part of Python `float(s)`: decimal digits with one optional
point (`"7"`, `"7.5"`, `"7."`, `".5"`); exponents and the `inf` / `nan`
spellings never occur on this pipeline's inputs and are not modelled. -/
def pyFloatMag (s : List Char) : Option ℚ :=
  let intPart := s.takeWhile Char.isDigit
  let rest := s.dropWhile Char.isDigit
  match rest with
  | [] => if intPart = [] then none else some (mkRat (parseAcc 0 intPart : ℕ) 1)
  | '.' :: frac =>
    if frac.all Char.isDigit ∧ (intPart ≠ [] ∨ frac ≠ []) then
      some (mkRat (parseAcc 0 (intPart ++ frac) : ℕ) ((10 : ℕ) ^ frac.length))
    else none
  | _ => none

/-- Python `float(s)` (see `pyFloatMag`); `none` where the builtin raises
`ValueError`. -/
def pyFloatOfChars (s : List Char) : Option ℚ :=
  match s with
  | [] => none
  | c :: rest =>
    if c == '-' then (pyFloatMag rest).map Neg.neg
    else if c == '+' then pyFloatMag rest
    else pyFloatMag (c :: rest)

/-- Python dict update `d[k] = v` for a string-keyed dict, preserving
insertion order. -/
def dictInsert {α : Type} (d : List (List Char × α)) (k : List Char) (v : α) :
    List (List Char × α) :=
  match d with
  | [] => [(k, v)]
  | (k2, v2) :: rest =>
    if k2 == k then (k2, v) :: rest else (k2, v2) :: dictInsert rest k v

/-- Python dict lookup `d[k]` / `k in d` for a string-keyed dict. -/
def dictLookup {α : Type} (d : List (List Char × α)) (k : List Char) : Option α :=
  match d with
  | [] => none
  | (k2, v2) :: rest => if k2 == k then some v2 else dictLookup rest k

namespace Compiler

/-- Bytecode instruction as the code generator constructs it
(compiler.py `Instruction`).  The dataclass annotates the operand as
`Optional[Union[int, float, str]]`, but every `Instruction(..)` the code
generator constructs passes either no operand or an `int` (a constant-pool
index or an absolute jump target), so the operand here is `Option ℤ`. -/
structure Instruction where
  opcode : Opcode
  operand : Option ℤ := none
  line : ℤ := 0
  deriving DecidableEq

/-- Python `Instruction.__str__` (compiler.py): the opcode name,
optionally followed by one space and the operand's textual form. -/
def Instruction.toChars (ins : Instruction) : List Char :=
  match ins.operand with
  | none => ins.opcode.pyName
  | some z => ins.opcode.pyName ++ ' ' :: intChars z

/-- Compiled function (compiler.py `Function`). -/
structure Function where
  name : List Char
  param_count : ℤ
  instructions : List Instruction := []
  deriving DecidableEq

/-- Syntax tree as the parser produces it.  Branch bodies are embedded as
the child lists of their BLOCK nodes (code generation only ever iterates a
block's children).  Each constructor that code generation reads a source
line from carries that line; the other positions are elided.  The for-loop
keeps its synthesized count child (the parser always stores the RPN node
"count" there), because `generate_expression` recurses into it. -/
inductive AST where
  | program : List AST → AST
  | functionDecl : List Char → ℤ → List AST → AST
  | variableDecl : List Char → Bool → Option AST → ℤ → AST
  | block : List AST → AST
  | ifExpr : AST → List AST → Option (List AST) → ℤ → AST
  | whileLoop : AST → List AST → ℤ → AST
  | forLoop : AST → List AST → ℤ → AST
  | rpn : List Char → ℤ → AST

/-- Whether a node is a function declaration (`child.type == FUNCTION_DECL`). -/
def AST.isFnDecl : AST → Bool
  | .functionDecl _ _ _ => true
  | _ => false

/-- Compiler-side failure: a Python `ValueError` from `float(..)` on a
malformed FLOAT token, an `AttributeError` from reading
`self.current_function.instructions` while it is `None`, the
`CodeGeneratorError` for a non-PROGRAM root, or fuel exhaustion of the
embedding's recursion counter. -/
inductive GErr where
  | floatValueError : GErr
  | hostAttrError : GErr
  | notProgramNode : GErr
  | fuelOut : GErr
  deriving DecidableEq

/-- Python `value in pool` for the constant pool (`==` is `pyEq`). -/
def listContains (l : List Value) (v : Value) : Bool :=
  l.any (fun c => pyEq c v)

/-- Python `pool.index(value)`: index of the first `==`-equal element. -/
def listIndex (l : List Value) (v : Value) : ℕ :=
  match l with
  | [] => 0
  | c :: rest => if pyEq c v then 0 else listIndex rest v + 1

/-- CodeGenerator.add_constant: return the index of an existing
`==`-equal entry, otherwise append and return the new index. -/
def add_constant (pool : List Value) (v : Value) : ℕ × List Value :=
  if listContains pool v then (listIndex pool v, pool)
  else (pool.length, pool ++ [v])

/-- Constant pools reachable from the generator's initial empty pool by
`add_constant` calls (every pool the code generator ever builds). -/
inductive Interned : List Value → Prop where
  | nil : Interned []
  | step (l : List Value) (v : Value) : Interned l → Interned (add_constant l v).2

/-- CodeGenerator state: the constant pool, the function dict, the
function currently being emitted into (`None` outside
`generate_function` / the main pass), and the generator's own orphan
`self.instructions` list (the target of `emit` when no current function is
set, and of the direct append in `generate_code`). -/
structure Gen where
  constants : List Value := []
  functions : List (List Char × Function) := []
  cur : Option Function := none
  instructions : List Instruction := []

/-- `add_constant` acting on the generator state. -/
def Gen.addConst (g : Gen) (v : Value) : ℕ × Gen :=
  let r := add_constant g.constants v
  (r.1, {g with constants := r.2})

/-- CodeGenerator.emit: append to the current function's instruction list
when a current function is set, otherwise to the generator's own list. -/
def emit (g : Gen) (ins : Instruction) : Gen :=
  match g.cur with
  | some f => {g with cur := some {f with instructions := f.instructions ++ [ins]}}
  | none => {g with instructions := g.instructions ++ [ins]}

/-- Length of the current function's instruction list
(`len(self.current_function.instructions)`); the `none` branch is junk and
is only reached on paths that raise `hostAttrError` before using it. -/
def curLen (g : Gen) : ℕ :=
  match g.cur with
  | some f => f.instructions.length
  | none => 0

/-- Relation between generator states used by the layout lemmas: the
current function, when one is set, has kept its name and parameter count
and only grown by appended (and later patched) instructions; the absence
of a current function is preserved. -/
def curExtends (g g' : Gen) : Prop :=
  (∀ f, g.cur = some f →
    ∃ D, g'.cur = some ⟨f.name, f.param_count, f.instructions ++ D⟩) ∧
  (g.cur = none → g'.cur = none)

/-- Backpatch: overwrite the operand of the instruction at index `i`
(Python mutates the emitted `Instruction` object in place; here the list
is rebuilt; the index is always in range at every call site, so the
`none` fallback is unreachable). -/
def setOperand (l : List Instruction) (i : ℕ) (v : ℤ) : List Instruction :=
  match l[i]? with
  | some ins => l.set i {ins with operand := some v}
  | none => l

/-- Tokens of the codegen-time RPN mini-tokenizer
(`tokenize_rpn_expression`); each carries its raw text. -/
inductive RpnTok where
  | tInt : List Char → RpnTok
  | tFloat : List Char → RpnTok
  | tStr : List Char → RpnTok
  | tIdent : List Char → RpnTok
  deriving DecidableEq

/-- String-token body scan of `tokenize_rpn_expression`: after an opening
quote, consume up to and including the closing quote, skipping a
backslash together with the character after it; an unterminated string
consumes the rest of the input (no error is raised). -/
def tokStrBody : List Char → List Char × List Char
  | [] => ([], [])
  | '"' :: rest => (['"'], rest)
  | '\\' :: c :: rest =>
    let r := tokStrBody rest
    ('\\' :: c :: r.1, r.2)
  | '\\' :: [] => (['\\'], [])
  | c :: rest =>
    let r := tokStrBody rest
    (c :: r.1, r.2)

/-- Main loop of `tokenize_rpn_expression`, fueled by the remaining input
length (each step consumes at least one character, so the initial fuel in
`tokenize_rpn_expression` always suffices). -/
def tokAux : ℕ → List Char → List RpnTok
  | 0, _ => []
  | _ + 1, [] => []
  | fuel + 1, c :: rest =>
    if pyIsSpace c then tokAux fuel rest
    else if c == '"' then
      let r := tokStrBody rest
      .tStr ('"' :: r.1) :: tokAux fuel r.2
    else if c.isDigit then
      let num := c :: rest.takeWhile (fun d => d.isDigit || d == '.')
      let r := rest.dropWhile (fun d => d.isDigit || d == '.')
      (if num.contains '.' then RpnTok.tFloat num else RpnTok.tInt num)
        :: tokAux fuel r
    else
      let w := c :: rest.takeWhile (fun d => !pyIsSpace d)
      let r := rest.dropWhile (fun d => !pyIsSpace d)
      RpnTok.tIdent w :: tokAux fuel r

/-- CodeGenerator.tokenize_rpn_expression. -/
def tokenize_rpn_expression (s : List Char) : List RpnTok :=
  tokAux s.length s

/-- The fixed identifier-to-opcode dispatch of
`generate_rpn_expression`: arithmetic and comparison operator symbols,
`print`, the stack-shuffle names and the builtin names, in the order of
the source's `if`/`elif` chain (the names are pairwise distinct, so a
first-match table is equivalent to the chain). -/
def builtinOps : List (List Char × Opcode) :=
  [(("+").toList, .ADD), (("-").toList, .SUB),
   (("*").toList, .MUL), (("/").toList, .DIV),
   (("print").toList, .PRINT),
   (("<").toList, .LT), ((">").toList, .GT),
   (("==").toList, .EQ), (("!=").toList, .NE),
   (("<=").toList, .LE), ((">=").toList, .GE),
   (("dup").toList, .DUP), (("drop").toList, .DROP),
   (("swap").toList, .SWAP), (("over").toList, .OVER),
   (("rot").toList, .ROT),
   (("read_stdin").toList, .READ_STDIN),
   (("read_file").toList, .READ_FILE),
   (("create_array").toList, .CREATE_ARRAY),
   (("load_array").toList, .LOAD_ARRAY),
   (("store_array").toList, .STORE_ARRAY),
   (("array_length").toList, .ARRAY_LENGTH),
   (("create_dict").toList, .CREATE_DICT),
   (("load_dict").toList, .LOAD_DICT),
   (("store_dict").toList, .STORE_DICT),
   (("dict_has_key").toList, .DICT_HAS_KEY),
   (("dict_length").toList, .DICT_LENGTH),
   (("string_length").toList, .STRING_LENGTH),
   (("string_concat").toList, .STRING_CONCAT),
   (("string_substring").toList, .STRING_SUBSTRING),
   (("string_indexof").toList, .STRING_INDEXOF)]

/-- One token of `generate_rpn_expression`'s loop: literal tokens intern
into the pool and load; a known fixed name emits its opcode; a known
function name emits a call; anything else emits a variable load.  A FLOAT
token whose text `float(..)` rejects (for example `1..2`) raises
`ValueError`. -/
def rpnStep (ln : ℤ) (g : Gen) (t : RpnTok) : Except GErr Gen :=
  match t with
  | .tInt s =>
    let r := g.addConst (.vInt ((parseAcc 0 s : ℕ) : ℤ))
    .ok (emit r.2 ⟨.LOAD_CONST, some (r.1 : ℤ), ln⟩)
  | .tFloat s =>
    match pyFloatOfChars s with
    | some q =>
      let r := g.addConst (.vFloat q)
      .ok (emit r.2 ⟨.LOAD_CONST, some (r.1 : ℤ), ln⟩)
    | none => .error .floatValueError
  | .tStr s =>
    let v := if 2 ≤ s.length then (s.drop 1).dropLast else s
    let r := g.addConst (.vStr v)
    .ok (emit r.2 ⟨.LOAD_STRING, some (r.1 : ℤ), ln⟩)
  | .tIdent s =>
    match builtinOps.find? (fun p => p.1 == s) with
    | some p => .ok (emit g ⟨p.2, none, ln⟩)
    | none =>
      if (dictLookup g.functions s).isSome then
        let r := g.addConst (.vStr s)
        .ok (emit r.2 ⟨.CALL, some (r.1 : ℤ), ln⟩)
      else
        let r := g.addConst (.vStr s)
        .ok (emit r.2 ⟨.LOAD_VAR, some (r.1 : ℤ), ln⟩)

/-- Token loop of `generate_rpn_expression`. -/
def genRpnAux (ln : ℤ) : List RpnTok → Gen → Except GErr Gen
  | [], g => .ok g
  | t :: ts, g =>
    match rpnStep ln g t with
    | .error e => .error e
    | .ok g1 => genRpnAux ln ts g1

/-- CodeGenerator.generate_rpn_expression. -/
def generate_rpn_expression (text : List Char) (ln : ℤ) (g : Gen) :
    Except GErr Gen :=
  genRpnAux ln (tokenize_rpn_expression text) g

/-- CodeGenerator.generate_rpn_expression_node: only an RPN node (whose
payload is a string) generates anything. -/
def generate_rpn_expression_node (node : AST) (g : Gen) : Except GErr Gen :=
  match node with
  | .rpn text ln => generate_rpn_expression text ln g
  | _ => .ok g

/-- Work items for the single fueled recursion over the syntax tree:
`generate_statement`, a statement list (`generate_block` /
`generate_code`'s main pass), `generate_expression`, an expression child
walk, `generate_function`, and `generate_code`'s declaration pass. -/
inductive GenTask where
  | stmt : AST → GenTask
  | stmts : List AST → GenTask
  | expr : AST → GenTask
  | exprs : List AST → GenTask
  | fnDecl : List Char → ℤ → List AST → GenTask
  | decls : List AST → GenTask

/-- The recursive heart of the code generator
(`generate_statement` / `generate_block` / `generate_if_expr` /
`generate_while_loop` / `generate_for_loop` / `generate_expression` /
`generate_function`), as one structurally fueled recursion. -/
def genRun : ℕ → GenTask → Gen → Except GErr Gen
  | 0, _, _ => .error .fuelOut
  | fuel + 1, task, g =>
    match task with
    | .stmts [] => .ok g
    | .stmts (x :: xs) =>
      match genRun fuel (.stmt x) g with
      | .error e => .error e
      | .ok g1 => genRun fuel (.stmts xs) g1
    | .exprs [] => .ok g
    | .exprs (x :: xs) =>
      match genRun fuel (.expr x) g with
      | .error e => .error e
      | .ok g1 => genRun fuel (.exprs xs) g1
    | .stmt node =>
      match node with
      | .variableDecl name _mut init ln =>
        match (match init with
               | some e => genRun fuel (.expr e) g
               | none =>
                 let r := g.addConst (.vInt 0)
                 .ok (emit r.2 ⟨.LOAD_CONST, some (r.1 : ℤ), ln⟩)) with
        | .error e => .error e
        | .ok g1 =>
          let r := g1.addConst (.vStr name)
          .ok (emit r.2 ⟨.STORE_VAR, some (r.1 : ℤ), ln⟩)
      | .block children => genRun fuel (.stmts children) g
      | .rpn text ln => generate_rpn_expression text ln g
      | .ifExpr cond thn els ln =>
        match generate_rpn_expression_node cond g with
        | .error e => .error e
        | .ok g1 =>
          let jifIdx := curLen g1
          let g2 := emit g1 ⟨.JUMP_IF_FALSE, some 0, ln⟩
          match genRun fuel (.stmts thn) g2 with
          | .error e => .error e
          | .ok g3 =>
            match els with
            | none =>
              match g3.cur with
              | none => .error .hostAttrError
              | some f3 =>
                let patched := setOperand f3.instructions jifIdx (f3.instructions.length : ℤ)
                .ok {g3 with cur := some {f3 with instructions := patched}}
            | some elseBlock =>
              let jIdx := curLen g3
              let g4 := emit g3 ⟨.JUMP, some 0, ln⟩
              match g4.cur with
              | none => .error .hostAttrError
              | some f4 =>
                let patched4 := setOperand f4.instructions jifIdx (f4.instructions.length : ℤ)
                let g5 : Gen := {g4 with cur := some {f4 with instructions := patched4}}
                match genRun fuel (.stmts elseBlock) g5 with
                | .error e => .error e
                | .ok g6 =>
                  match g6.cur with
                  | none => .error .hostAttrError
                  | some f6 =>
                    let patched6 := setOperand f6.instructions jIdx (f6.instructions.length : ℤ)
                    .ok {g6 with cur := some {f6 with instructions := patched6}}
      | .whileLoop cond body ln =>
        match g.cur with
        | none => .error .hostAttrError
        | some f =>
          let loopStart := f.instructions.length
          match generate_rpn_expression_node cond g with
          | .error e => .error e
          | .ok g1 =>
            match genRun fuel (.stmts body) g1 with
            | .error e => .error e
            | .ok g2 =>
              let g3 := emit g2 ⟨.DROP, none, ln⟩
              .ok (emit g3 ⟨.JUMP, some (loopStart : ℤ), ln⟩)
      | .forLoop _cnt body ln =>
        let cv : Value := .vStr (("_for_count_").toList ++ intChars ln)
        let r1 := g.addConst cv
        let g1 := emit r1.2 ⟨.STORE_VAR, some (r1.1 : ℤ), ln⟩
        match g1.cur with
        | none => .error .hostAttrError
        | some f1 =>
          let loopStart := f1.instructions.length
          let r2 := g1.addConst cv
          let g2 := emit r2.2 ⟨.LOAD_VAR, some (r2.1 : ℤ), ln⟩
          let r3 := g2.addConst (.vInt 0)
          let g3 := emit r3.2 ⟨.LOAD_CONST, some (r3.1 : ℤ), ln⟩
          let g4 := emit g3 ⟨.GT, none, ln⟩
          let jEndIdx := curLen g4
          let g5 := emit g4 ⟨.JUMP_IF_FALSE, some 0, ln⟩
          match genRun fuel (.stmts body) g5 with
          | .error e => .error e
          | .ok g6 =>
            let r4 := g6.addConst cv
            let g7 := emit r4.2 ⟨.LOAD_VAR, some (r4.1 : ℤ), ln⟩
            let r5 := g7.addConst (.vInt 1)
            let g8 := emit r5.2 ⟨.LOAD_CONST, some (r5.1 : ℤ), ln⟩
            let g9 := emit g8 ⟨.SUB, none, ln⟩
            let r6 := g9.addConst cv
            let g10 := emit r6.2 ⟨.STORE_VAR, some (r6.1 : ℤ), ln⟩
            let g11 := emit g10 ⟨.JUMP, some (loopStart : ℤ), ln⟩
            match g11.cur with
            | none => .error .hostAttrError
            | some f11 =>
              let patched11 := setOperand f11.instructions jEndIdx (f11.instructions.length : ℤ)
              let g12 : Gen := {g11 with cur := some {f11 with instructions := patched11}}
              .ok (emit g12 ⟨.DROP, none, ln⟩)
      | .program _ => genRun fuel (.expr node) g
      | .functionDecl _ _ _ => genRun fuel (.expr node) g
    | .expr node =>
      match node with
      | .rpn text ln => generate_rpn_expression text ln g
      | .program children => genRun fuel (.exprs children) g
      | .functionDecl _ _ body => genRun fuel (.exprs body) g
      | .variableDecl _ _ init _ =>
        match init with
        | some e => genRun fuel (.expr e) g
        | none => .ok g
      | .block children => genRun fuel (.exprs children) g
      | .ifExpr cond thn els _ =>
        match genRun fuel (.expr cond) g with
        | .error e => .error e
        | .ok g1 =>
          match genRun fuel (.exprs thn) g1 with
          | .error e => .error e
          | .ok g2 =>
            match els with
            | some elseBlock => genRun fuel (.exprs elseBlock) g2
            | none => .ok g2
      | .whileLoop cond body _ =>
        match genRun fuel (.expr cond) g with
        | .error e => .error e
        | .ok g1 => genRun fuel (.exprs body) g1
      | .forLoop cnt body _ =>
        match genRun fuel (.expr cnt) g with
        | .error e => .error e
        | .ok g1 => genRun fuel (.exprs body) g1
    | .fnDecl name pc body =>
      let f0 : Function := ⟨name, pc, []⟩
      let g1 : Gen := {g with functions := dictInsert g.functions name f0,
                              cur := some f0}
      match genRun fuel (.stmts body) g1 with
      | .error e => .error e
      | .ok g2 =>
        match g2.cur with
        | none => .error .hostAttrError
        | some f2 =>
          let f3 :=
            match f2.instructions.getLast? with
            | some lastIns =>
              if lastIns.opcode == .RETURN then f2
              else {f2 with instructions := f2.instructions ++ [⟨.RETURN, none, 0⟩]}
            | none => {f2 with instructions := f2.instructions ++ [⟨.RETURN, none, 0⟩]}
          .ok {g2 with functions := dictInsert g2.functions name f3, cur := g.cur}
    | .decls [] => .ok g
    | .decls (x :: xs) =>
      match x with
      | .functionDecl name pc body =>
        match genRun fuel (.fnDecl name pc body) g with
        | .error e => .error e
        | .ok g1 => genRun fuel (.decls xs) g1
      | _ => genRun fuel (.decls xs) g

/-- CodeGenerator.generate_code: declarations pass, then the main pass
into a fresh function named `main` with parameter count 0, then a HALT
appended to `self.instructions` (the generator's own orphan list — not to
`main`), then `self.functions["main"] = self.current_function`.  Returns
the final generator state. -/
def generate_code (fuel : ℕ) (ast : AST) : Except GErr Gen :=
  match ast with
  | .program children =>
    let g0 : Gen := {}
    match genRun fuel (.decls children) g0 with
    | .error e => .error e
    | .ok g1 =>
      let mainF : Function := ⟨("main").toList, 0, []⟩
      let g2 : Gen := {g1 with cur := some mainF}
      match genRun fuel (.stmts (children.filter (fun c => !c.isFnDecl))) g2 with
      | .error e => .error e
      | .ok g3 =>
        let g4 : Gen := {g3 with instructions := g3.instructions ++ [⟨.HALT, none, 0⟩]}
        match g4.cur with
        | some m => .ok {g4 with functions := dictInsert g4.functions (("main").toList) m}
        | none => .error .hostAttrError
  | _ => .error .notProgramNode

end Compiler

namespace Vm

/-- Operand of a loaded instruction (vm.py `Instruction`): the loader can
reconstruct an int, a float, or a raw string. -/
inductive Operand where
  | oInt : ℤ → Operand
  | oFloat : ℚ → Operand
  | oStr : List Char → Operand
  deriving DecidableEq

/-- Instruction as the standalone VM represents it. -/
structure Instruction where
  opcode : Opcode
  operand : Option Operand := none
  line : ℤ := 0

/-- Python `str.strip()` (with the modelled whitespace set). -/
def stripChars (s : List Char) : List Char :=
  ((s.dropWhile pyIsSpace).reverse.dropWhile pyIsSpace).reverse

/-- Python `s.split(' ', 1)`: text before the first space, and — when a
space exists — everything after it. -/
def splitFirstSpace : List Char → List Char × Option (List Char)
  | [] => ([], none)
  | c :: rest =>
    if c = ' ' then ([], some rest)
    else
      let r := splitFirstSpace rest
      (c :: r.1, r.2)

/-- Operand reconstruction of `Instruction.from_string`: attempt an
integer parse, then a float parse, then keep the raw string. -/
def parseOperand (s : List Char) : Operand :=
  match pyIntOfChars s with
  | some z => .oInt z
  | none =>
    match pyFloatOfChars s with
    | some q => .oFloat q
    | none => .oStr s

/-- Instruction.from_string (vm.py): strip, split once on a space, map
the opcode name through the enum (`none` models the "Unknown opcode"
`ValueError`), reconstruct the operand, and set the line to 0. -/
def Instruction.from_string (s : List Char) : Option Instruction :=
  match opcodeOfName (splitFirstSpace (stripChars s)).1 with
  | none => none
  | some op =>
    some ⟨op, ((splitFirstSpace (stripChars s)).2).map parseOperand, 0⟩

/-- Loaded function (vm.py `Function`). -/
structure Function where
  name : List Char
  param_count : ℤ
  instructions : List Instruction := []

/-- Call-stack frame.  Python list indices can be negative, so the
program counter and base pointer are integers as in the source.  The
`vars` field is the source's `variables` dict (that spelling is a
reserved word here). -/
structure Frame where
  instructions : List Instruction
  pc : ℤ := 0
  base_pointer : ℤ := 0
  vars : List (Value × Value) := []

/-- Distinct failure kinds of the VM.  The `vmErr*` constructors are the
`VmError` raises of `execute_instruction` (identified by message); the
`host*` constructors are Python-level exceptions the source does not
catch (IndexError from indexing/popping, TypeError from an unhashable
dict key, UnboundLocalError from the STORE_ARRAY branch); `externalInput`
marks the two opcodes that consume the outside world (stdin / the file
system), which a shallow embedding cannot model and no claim touches. -/
inductive VmErr where
  | stackUnderflow
  | invalidConstantIndex
  | invalidStringIndex
  | invalidVariableIndex
  | variableNotFound
  | notEnoughForSwap
  | notEnoughForOver
  | notEnoughForRot
  | typeMismatch
  | divisionByZero
  | invalidJumpTarget
  | invalidFunctionIndex
  | functionNotFound
  | arraySizeError
  | expectedArray
  | arrayIndexOutOfBounds
  | arrayUninitialized
  | expectedDict
  | dictKeyNotFound
  | expectedString
  | substringTypeError
  | substringBounds
  | hostIndexError
  | hostTypeError
  | hostUnboundLocal
  | externalInput
  deriving DecidableEq

/-- VM state: the loaded constants and functions, the shared operand
stack (bottom of stack at the head of the list, as in the Python list),
the call stack, the global variable dict, and the text printed so far
(standard output, appended to by PRINT). -/
structure VMState where
  constants : List Value := []
  functions : List (List Char × Function) := []
  stack : List Value := []
  call_stack : List Frame := []
  global_variables : List (Value × Value) := []
  output : List Value := []

/-- VM.push. -/
def push (S : VMState) (v : Value) : VMState :=
  {S with stack := S.stack ++ [v]}

/-- VM.pop: the top of the operand stack and the remaining state, or a
stack-underflow error. -/
def popV (S : VMState) : Except VmErr (Value × VMState) :=
  match S.stack.getLast? with
  | none => .error .stackUnderflow
  | some v => .ok (v, {S with stack := S.stack.dropLast})

/-- VM.peek. -/
def peekV (S : VMState) : Except VmErr Value :=
  match S.stack.getLast? with
  | none => .error .stackUnderflow
  | some v => .ok v

/-- Python list subscript `l[i]` with an `int` index: non-negative
indices below the length, negative indices counted from the end,
IndexError otherwise. -/
def pyListGet (l : List Value) (i : ℤ) : Except VmErr Value :=
  if 0 ≤ i then
    match l[i.toNat]? with
    | some v => .ok v
    | none => .error .hostIndexError
  else
    let j := (l.length : ℤ) + i
    if 0 ≤ j then
      match l[j.toNat]? with
      | some v => .ok v
      | none => .error .hostIndexError
    else .error .hostIndexError

/-- The operand-validation-plus-fetch pattern shared by LOAD_CONST,
LOAD_STRING, LOAD_VAR, STORE_VAR and CALL:
`operand is None or not isinstance(operand, int) or operand >= len(constants)`
raises the per-opcode error, then the constant is fetched with a Python
subscript (the guard has no lower bound, so a negative operand indexes
from the end). -/
def constFetch (S : VMState) (operand : Option Operand) (e : VmErr) :
    Except VmErr Value :=
  match operand with
  | some (.oInt i) =>
    if (S.constants.length : ℤ) ≤ i then .error e
    else pyListGet S.constants i
  | _ => .error e

/-- Python dict keys must be hashable: lists and dicts are not. -/
def hashable : Value → Bool
  | .vArr _ => false
  | .vDict _ => false
  | _ => true

/-- Value-keyed dict lookup (`d[k]`, `k in d`): first `==`-equal key. -/
def vdictLookup (d : List (Value × Value)) (k : Value) : Option Value :=
  match d with
  | [] => none
  | (k2, v2) :: rest => if pyEq k2 k then some v2 else vdictLookup rest k

/-- Value-keyed dict update `d[k] = v`: replace the value at the first
`==`-equal key (keeping the stored key object), else append. -/
def vdictInsert (d : List (Value × Value)) (k v : Value) :
    List (Value × Value) :=
  match d with
  | [] => [(k, v)]
  | (k2, v2) :: rest =>
    if pyEq k2 k then (k2, v) :: rest else (k2, v2) :: vdictInsert rest k v

/-- Numeric view of a value under `isinstance(x, (int, float))` — which
in Python also admits `bool`, a subclass of `int` (`True` counts as 1,
`False` as 0). -/
def numView : Value → Option ℚ
  | .vInt z => some (z : ℚ)
  | .vFloat q => some q
  | .vBool b => some (if b then 1 else 0)
  | _ => none

/-- Integer-like view: `int` or `bool` but not `float` (for the
`a // b` branch of DIV and for the int-typed operands of the array
opcodes, where `isinstance(x, int)` admits `bool`). -/
def intView : Value → Option ℤ
  | .vInt z => some z
  | .vBool b => some (if b then 1 else 0)
  | _ => none

/-- Whether a value is a Python `float` (`isinstance(x, float)`). -/
def isFloatV : Value → Bool
  | .vFloat _ => true
  | _ => false

/-- Python truthiness (`not condition`): `False`, zero, an empty string,
an empty list, an empty dict and `None` are falsy. -/
def pyTruthy : Value → Bool
  | .vBool b => b
  | .vInt z => z != 0
  | .vFloat q => q != 0
  | .vStr s => !s.isEmpty
  | .vNone => false
  | .vArr l => !l.isEmpty
  | .vDict d => !d.isEmpty

/-- Binary arithmetic result for ADD / SUB / MUL: Python `int` (or
`bool`) arguments give an `int`, any `float` argument gives a `float`. -/
def arith (f : ℚ → ℚ → ℚ) (fz : ℤ → ℤ → ℤ) (a b : Value) : Value :=
  match intView a, intView b with
  | some x, some y => .vInt (fz x y)
  | _, _ =>
    match numView a, numView b with
    | some x, some y => .vFloat (f x y)
    | _, _ => .vNone

/-- RETURN's argument-cleanup loop
(`while len(self.stack) > frame.base_pointer: self.pop()`), fueled by the
stack length: each iteration pops the top value; `pop` on an empty stack
raises the underflow error (reached when the base pointer is negative).
The fuel equals the starting length, and the stack shrinks by one per
iteration, so the fuel-0 branch is only ever reached with an empty
stack. -/
def shrinkAux : ℕ → List Value → ℤ → Except VmErr (List Value)
  | 0, st, bp => if bp < (st.length : ℤ) then .error .stackUnderflow else .ok st
  | fuel + 1, st, bp =>
    if bp < (st.length : ℤ) then
      match st.getLast? with
      | none => .error .stackUnderflow
      | some _ => shrinkAux fuel st.dropLast bp
    else .ok st

/-- See `shrinkAux`. -/
def shrinkStack (st : List Value) (bp : ℤ) : Except VmErr (List Value) :=
  shrinkAux st.length st bp

/-- Set the program counter of the top frame
(`self.call_stack[-1].pc = target`); IndexError when the call stack is
empty. -/
def setTopPc (S : VMState) (target : ℤ) : Except VmErr VMState :=
  match S.call_stack.getLast? with
  | none => .error .hostIndexError
  | some fr =>
    .ok {S with call_stack := S.call_stack.dropLast ++ [{fr with pc := target}]}

/-- Python `str.find`: index of the first occurrence of `sub` in `s`,
or -1. -/
def strFind (s sub : List Char) : ℤ :=
  go s 0
where
  go : List Char → ℤ → ℤ
    | t, i =>
      if sub.isPrefixOf t then i
      else
        match t with
        | [] => -1
        | _ :: rest => go rest (i + 1)

/-- VM.execute_instruction (vm.py): dispatch and execute one
instruction against the VM state.  Operand pops mirror the source's
order (for a binary operation the right operand `b` is popped first).
The two input opcodes (READ_STDIN, READ_FILE) touch the outside world
and end in the `externalInput` marker after their modelled prefix. -/
def execute_instruction (ins : Instruction) (S : VMState) :
    Except VmErr VMState :=
  match ins.opcode with
  | .LOAD_CONST =>
    match constFetch S ins.operand .invalidConstantIndex with
    | .error e => .error e
    | .ok v => .ok (push S v)
  | .LOAD_TRUE => .ok (push S (.vBool true))
  | .LOAD_FALSE => .ok (push S (.vBool false))
  | .LOAD_STRING =>
    match constFetch S ins.operand .invalidStringIndex with
    | .error e => .error e
    | .ok v => .ok (push S v)
  | .LOAD_VAR =>
    match constFetch S ins.operand .invalidVariableIndex with
    | .error e => .error e
    | .ok varName =>
      if !hashable varName then .error .hostTypeError
      else
        match S.call_stack.getLast? with
        | some fr =>
          match vdictLookup fr.vars varName with
          | some v => .ok (push S v)
          | none =>
            match vdictLookup S.global_variables varName with
            | some v => .ok (push S v)
            | none => .error .variableNotFound
        | none =>
          match vdictLookup S.global_variables varName with
          | some v => .ok (push S v)
          | none => .error .variableNotFound
  | .STORE_VAR =>
    match constFetch S ins.operand .invalidVariableIndex with
    | .error e => .error e
    | .ok varName =>
      match popV S with
      | .error e => .error e
      | .ok (v, S1) =>
        if !hashable varName then .error .hostTypeError
        else
          match S1.call_stack.getLast? with
          | some fr =>
            let fr2 := {fr with vars := vdictInsert fr.vars varName v}
            .ok {S1 with call_stack := S1.call_stack.dropLast ++ [fr2]}
          | none =>
            .ok {S1 with global_variables :=
                   vdictInsert S1.global_variables varName v}
  | .DUP =>
    match peekV S with
    | .error e => .error e
    | .ok v => .ok (push S v)
  | .DROP =>
    match popV S with
    | .error e => .error e
    | .ok (_, S1) => .ok S1
  | .SWAP =>
    if S.stack.length < 2 then .error .notEnoughForSwap
    else
      match popV S with
      | .error e => .error e
      | .ok (a, S1) =>
        match popV S1 with
        | .error e => .error e
        | .ok (b, S2) => .ok (push (push S2 a) b)
  | .OVER =>
    if S.stack.length < 2 then .error .notEnoughForOver
    else
      match popV S with
      | .error e => .error e
      | .ok (a, S1) =>
        match peekV S1 with
        | .error e => .error e
        | .ok b => .ok (push (push S1 a) b)
  | .ROT =>
    if S.stack.length < 3 then .error .notEnoughForRot
    else
      match popV S with
      | .error e => .error e
      | .ok (a, S1) =>
        match popV S1 with
        | .error e => .error e
        | .ok (b, S2) =>
          match popV S2 with
          | .error e => .error e
          | .ok (c, S3) => .ok (push (push (push S3 b) a) c)
  | .ADD =>
    match popV S with
    | .error e => .error e
    | .ok (b, S1) =>
      match popV S1 with
      | .error e => .error e
      | .ok (a, S2) =>
        match numView a, numView b with
        | some _, some _ => .ok (push S2 (arith (· + ·) (· + ·) a b))
        | _, _ => .error .typeMismatch
  | .SUB =>
    match popV S with
    | .error e => .error e
    | .ok (b, S1) =>
      match popV S1 with
      | .error e => .error e
      | .ok (a, S2) =>
        match numView a, numView b with
        | some _, some _ => .ok (push S2 (arith (· - ·) (· - ·) a b))
        | _, _ => .error .typeMismatch
  | .MUL =>
    match popV S with
    | .error e => .error e
    | .ok (b, S1) =>
      match popV S1 with
      | .error e => .error e
      | .ok (a, S2) =>
        match numView a, numView b with
        | some _, some _ => .ok (push S2 (arith (· * ·) (· * ·) a b))
        | _, _ => .error .typeMismatch
  | .DIV =>
    match popV S with
    | .error e => .error e
    | .ok (b, S1) =>
      match popV S1 with
      | .error e => .error e
      | .ok (a, S2) =>
        match numView a, numView b with
        | some qa, some qb =>
          if qb == 0 then .error .divisionByZero
          else if isFloatV a || isFloatV b then .ok (push S2 (.vFloat (qa / qb)))
          else
            match intView a, intView b with
            | some x, some y => .ok (push S2 (.vInt (Int.fdiv x y)))
            | _, _ => .error .typeMismatch
        | _, _ => .error .typeMismatch
  | .EQ =>
    match popV S with
    | .error e => .error e
    | .ok (b, S1) =>
      match popV S1 with
      | .error e => .error e
      | .ok (a, S2) => .ok (push S2 (.vBool (pyEq a b)))
  | .NE =>
    match popV S with
    | .error e => .error e
    | .ok (b, S1) =>
      match popV S1 with
      | .error e => .error e
      | .ok (a, S2) => .ok (push S2 (.vBool (!pyEq a b)))
  | .LT =>
    match popV S with
    | .error e => .error e
    | .ok (b, S1) =>
      match popV S1 with
      | .error e => .error e
      | .ok (a, S2) =>
        match numView a, numView b with
        | some qa, some qb => .ok (push S2 (.vBool (decide (qa < qb))))
        | _, _ => .error .typeMismatch
  | .GT =>
    match popV S with
    | .error e => .error e
    | .ok (b, S1) =>
      match popV S1 with
      | .error e => .error e
      | .ok (a, S2) =>
        match numView a, numView b with
        | some qa, some qb => .ok (push S2 (.vBool (decide (qb < qa))))
        | _, _ => .error .typeMismatch
  | .LE =>
    match popV S with
    | .error e => .error e
    | .ok (b, S1) =>
      match popV S1 with
      | .error e => .error e
      | .ok (a, S2) =>
        match numView a, numView b with
        | some qa, some qb => .ok (push S2 (.vBool (decide (qa ≤ qb))))
        | _, _ => .error .typeMismatch
  | .GE =>
    match popV S with
    | .error e => .error e
    | .ok (b, S1) =>
      match popV S1 with
      | .error e => .error e
      | .ok (a, S2) =>
        match numView a, numView b with
        | some qa, some qb => .ok (push S2 (.vBool (decide (qb ≤ qa))))
        | _, _ => .error .typeMismatch
  | .PRINT =>
    match popV S with
    | .error e => .error e
    | .ok (v, S1) => .ok {S1 with output := S1.output ++ [v]}
  | .JUMP =>
    match ins.operand with
    | some (.oInt t) => setTopPc S t
    | _ => .error .invalidJumpTarget
  | .JUMP_IF_FALSE =>
    match ins.operand with
    | some (.oInt t) =>
      match popV S with
      | .error e => .error e
      | .ok (c, S1) => if !pyTruthy c then setTopPc S1 t else .ok S1
    | _ => .error .invalidJumpTarget
  | .CALL =>
    match constFetch S ins.operand .invalidFunctionIndex with
    | .error e => .error e
    | .ok fname =>
      match fname with
      | .vStr s =>
        match dictLookup S.functions s with
        | none => .error .functionNotFound
        | some f =>
          let bp : ℤ := (S.stack.length : ℤ) - f.param_count
          .ok {S with call_stack := S.call_stack ++ [⟨f.instructions, 0, bp, []⟩]}
      | _ => .error .functionNotFound
  | .RETURN =>
    match S.call_stack.getLast? with
    | none => .error .hostIndexError
    | some fr =>
      let S1 : VMState := {S with call_stack := S.call_stack.dropLast}
      match popV S1 with
      | .error e => .error e
      | .ok (ret, S2) =>
        match shrinkStack S2.stack fr.base_pointer with
        | .error e => .error e
        | .ok st => .ok (push {S2 with stack := st} ret)
  | .HALT => .ok {S with call_stack := []}
  | .CREATE_ARRAY =>
    match popV S with
    | .error e => .error e
    | .ok (size, S1) =>
      match intView size with
      | some n =>
        if n < 0 then .error .arraySizeError
        else .ok (push S1 (.vArr (List.replicate n.toNat .vNone)))
      | none => .error .arraySizeError
  | .LOAD_ARRAY =>
    match popV S with
    | .error e => .error e
    | .ok (idx, S1) =>
      match popV S1 with
      | .error e => .error e
      | .ok (arr, S2) =>
        match arr with
        | .vArr l =>
          match intView idx with
          | some i =>
            if i < 0 ∨ (l.length : ℤ) ≤ i then .error .arrayIndexOutOfBounds
            else
              match l[i.toNat]? with
              | some .vNone => .error .arrayUninitialized
              | some v => .ok (push S2 v)
              | none => .error .arrayIndexOutOfBounds
          | none => .error .arrayIndexOutOfBounds
        | _ => .error .expectedArray
  | .STORE_ARRAY =>
    -- vm.py lines 429-436: this branch reads the local names `array`,
    -- `index` and `value` but never assigns (pops) them, so its first
    -- line raises UnboundLocalError unconditionally; nothing is popped,
    -- written or pushed.
    .error .hostUnboundLocal
  | .ARRAY_LENGTH =>
    match popV S with
    | .error e => .error e
    | .ok (arr, S1) =>
      match arr with
      | .vArr l => .ok (push S1 (.vInt (l.length : ℤ)))
      | _ => .error .expectedArray
  | .CREATE_DICT => .ok (push S (.vDict []))
  | .LOAD_DICT =>
    match popV S with
    | .error e => .error e
    | .ok (key, S1) =>
      match popV S1 with
      | .error e => .error e
      | .ok (d, S2) =>
        match d with
        | .vDict dl =>
          if !hashable key then .error .hostTypeError
          else
            match vdictLookup dl key with
            | some v => .ok (push S2 v)
            | none => .error .dictKeyNotFound
        | _ => .error .expectedDict
  | .STORE_DICT =>
    match popV S with
    | .error e => .error e
    | .ok (_v, S1) =>
      match popV S1 with
      | .error e => .error e
      | .ok (key, S2) =>
        match popV S2 with
        | .error e => .error e
        | .ok (d, S3) =>
          match d with
          | .vDict _dl =>
            if !hashable key then .error .hostTypeError
            -- The source mutates the popped dict object in place and
            -- pushes nothing; with value semantics the popped dict (and
            -- its added entry) simply leaves the state.
            else .ok S3
          | _ => .error .expectedDict
  | .DICT_HAS_KEY =>
    match popV S with
    | .error e => .error e
    | .ok (key, S1) =>
      match popV S1 with
      | .error e => .error e
      | .ok (d, S2) =>
        match d with
        | .vDict dl =>
          if !hashable key then .error .hostTypeError
          else .ok (push S2 (.vBool (vdictLookup dl key).isSome))
        | _ => .error .expectedDict
  | .DICT_LENGTH =>
    match popV S with
    | .error e => .error e
    | .ok (d, S1) =>
      match d with
      | .vDict dl => .ok (push S1 (.vInt (dl.length : ℤ)))
      | _ => .error .expectedDict
  | .READ_STDIN => .error .externalInput
  | .READ_FILE =>
    match popV S with
    | .error e => .error e
    | .ok (fn, _S1) =>
      match fn with
      | .vStr _ => .error .externalInput
      | _ => .error .expectedString
  | .STRING_LENGTH =>
    match popV S with
    | .error e => .error e
    | .ok (v, S1) =>
      match v with
      | .vStr s => .ok (push S1 (.vInt (s.length : ℤ)))
      | _ => .error .expectedString
  | .STRING_CONCAT =>
    match popV S with
    | .error e => .error e
    | .ok (b, S1) =>
      match popV S1 with
      | .error e => .error e
      | .ok (a, S2) =>
        match a, b with
        | .vStr s1, .vStr s2 => .ok (push S2 (.vStr (s1 ++ s2)))
        | _, _ => .error .expectedString
  | .STRING_SUBSTRING =>
    match popV S with
    | .error e => .error e
    | .ok (lenV, S1) =>
      match popV S1 with
      | .error e => .error e
      | .ok (startV, S2) =>
        match popV S2 with
        | .error e => .error e
        | .ok (strV, S3) =>
          match strV with
          | .vStr s =>
            match intView startV, intView lenV with
            | some st, some ln =>
              if st < 0 ∨ (s.length : ℤ) ≤ st then .error .substringBounds
              else if ln < 0 then .error .substringBounds
              else if (s.length : ℤ) < st + ln then .error .substringBounds
              else .ok (push S3 (.vStr ((s.drop st.toNat).take ln.toNat)))
            | _, _ => .error .substringTypeError
          | _ => .error .expectedString
  | .STRING_INDEXOF =>
    match popV S with
    | .error e => .error e
    | .ok (subV, S1) =>
      match popV S1 with
      | .error e => .error e
      | .ok (strV, S2) =>
        match strV, subV with
        | .vStr s, .vStr sub => .ok (push S2 (.vInt (strFind s sub)))
        | _, _ => .error .expectedString

end Vm

/-! ## Helper lemmas about the VM's stack primitives -/

namespace Vm

theorem popV_concat (S : VMState) (s : List Value) (v : Value)
    (h : S.stack = s ++ [v]) : popV S = .ok (v, {S with stack := s}) := by
  simp [popV, h]

theorem peekV_concat (S : VMState) (s : List Value) (v : Value)
    (h : S.stack = s ++ [v]) : peekV S = .ok v := by
  simp [peekV, h]

theorem push_stack (S : VMState) (v : Value) :
    push S v = {S with stack := S.stack ++ [v]} := rfl

end Vm

end PostC

namespace PostC

open Vm

/-- Claim C4.  The claim states that STORE_ARRAY consumes the value, the
index and the target array from the operand stack, writes the value into
the array (with errors on a non-array or out-of-range index) and
re-pushes the array.  The code (vm.py lines 429-436) does none of this:
the branch reads the local names `array`, `index` and `value` without
ever popping (assigning) them, so Python raises `UnboundLocalError` on
its first line for every state — nothing is popped, written or pushed.
This theorem evaluates the embedded code: STORE_ARRAY fails with the
host-level unbound-local error on every VM state. -/
theorem c4_store_array_unbound (S : Vm.VMState) (o : Option Vm.Operand)
    (ln : ℤ) :
    Vm.execute_instruction ⟨.STORE_ARRAY, o, ln⟩ S = .error .hostUnboundLocal := rfl

theorem rot_single (S : Vm.VMState) (s : List Value) (x y z : Value)
    (o : Option Vm.Operand) (ln : ℤ) (h : S.stack = s ++ [x, y, z]) :
    Vm.execute_instruction ⟨.ROT, o, ln⟩ S = .ok {S with stack := s ++ [y, z, x]} := by
  have hlen : ¬ (S.stack.length < 3) := by simp [h]
  have h1 : S.stack = (s ++ [x, y]) ++ [z] := by simp [h]
  simp only [Vm.execute_instruction, if_neg hlen,
    Vm.popV_concat S (s ++ [x, y]) z h1,
    Vm.popV_concat {S with stack := s ++ [x, y]} (s ++ [x]) y (by simp),
    Vm.popV_concat {S with stack := s ++ [x]} s x (by simp)]
  simp [Vm.push]

theorem swap_single (S : Vm.VMState) (s : List Value) (x y : Value)
    (o : Option Vm.Operand) (ln : ℤ) (h : S.stack = s ++ [x, y]) :
    Vm.execute_instruction ⟨.SWAP, o, ln⟩ S = .ok {S with stack := s ++ [y, x]} := by
  have hlen : ¬ (S.stack.length < 2) := by simp [h]
  simp only [Vm.execute_instruction, if_neg hlen,
    Vm.popV_concat S (s ++ [x]) y (by simp [h]),
    Vm.popV_concat {S with stack := s ++ [x]} s x (by simp)]
  simp [Vm.push]

/-- Claim C8.  Stack shuffle laws of the VM (vm.py lines 251-282), for a
stack whose topmost values are `x`, `y`, `z` (with `z` on top, listed
bottom-to-top as the spec does):
ROT once turns `.. x y z` into `.. y z x` (the third-from-top moves to
the top); ROT three times restores the state; SWAP twice restores the
state; DUP then DROP restores the state. -/
theorem c8_stack_shuffle_laws :
    (∀ (S : Vm.VMState) (s : List Value) (x y z : Value)
        (o : Option Vm.Operand) (ln : ℤ), S.stack = s ++ [x, y, z] →
      Vm.execute_instruction ⟨.ROT, o, ln⟩ S = .ok {S with stack := s ++ [y, z, x]})
  ∧ (∀ (S : Vm.VMState) (s : List Value) (x y z : Value), S.stack = s ++ [x, y, z] →
      (Vm.execute_instruction ⟨.ROT, none, 0⟩ S >>= fun S1 =>
        Vm.execute_instruction ⟨.ROT, none, 0⟩ S1 >>= fun S2 =>
          Vm.execute_instruction ⟨.ROT, none, 0⟩ S2) = .ok S)
  ∧ (∀ (S : Vm.VMState) (s : List Value) (x y : Value), S.stack = s ++ [x, y] →
      (Vm.execute_instruction ⟨.SWAP, none, 0⟩ S >>= fun S1 =>
        Vm.execute_instruction ⟨.SWAP, none, 0⟩ S1) = .ok S)
  ∧ (∀ (S : Vm.VMState) (s : List Value) (x : Value), S.stack = s ++ [x] →
      (Vm.execute_instruction ⟨.DUP, none, 0⟩ S >>= fun S1 =>
        Vm.execute_instruction ⟨.DROP, none, 0⟩ S1) = .ok S) := by
  refine ⟨fun S s x y z o ln h => rot_single S s x y z o ln h, ?_, ?_, ?_⟩
  · intro S s x y z h
    rw [rot_single S s x y z none 0 h]
    simp only [bind, Except.bind]
    rw [rot_single _ s y z x none 0 rfl]
    simp only [Except.bind]
    rw [rot_single _ s z x y none 0 rfl]
    have : S = {S with stack := s ++ [x, y, z]} := by
      cases S; simp_all
    simp only [Except.bind]
    rw [← this]
  · intro S s x y h
    rw [swap_single S s x y none 0 h]
    simp only [bind, Except.bind]
    rw [swap_single _ s y x none 0 rfl]
    have : S = {S with stack := s ++ [x, y]} := by cases S; simp_all
    rw [← this]
  · intro S s x h
    have hd : Vm.execute_instruction ⟨.DUP, none, 0⟩ S =
        .ok {S with stack := (s ++ [x]) ++ [x]} := by
      simp only [Vm.execute_instruction]
      rw [Vm.peekV_concat S s x h]
      simp [Vm.push, h]
    rw [hd]
    simp only [bind, Except.bind]
    simp only [Vm.execute_instruction]
    rw [Vm.popV_concat _ (s ++ [x]) x (by simp)]
    have : S = {S with stack := s ++ [x]} := by cases S; simp_all
    rw [← this]

/-- Claim C5, counterexample.  The claim states that ADD fails with a
type-mismatch error unless both popped operands are numeric (integer or
float).  Executing ADD with the two booleans `True, True` on the stack —
booleans are neither integers nor floats in the language's value model —
does not fail: Python's `isinstance(x, (int, float))` admits `bool` (a
subclass of `int`), so the VM pushes `True + True = 2`. -/
theorem c5_counterexample :
    Vm.execute_instruction ⟨.ADD, none, 0⟩
        {stack := [.vBool true, .vBool true]} =
      .ok ({stack := [.vInt 2]} : Vm.VMState) := rfl

/-- Claim C5, amended.  Each arithmetic opcode (ADD, SUB, MUL, DIV)
fails with a type-mismatch error unless both popped operands are numeric,
where Python's numeric test also admits booleans (`True` as 1, `False`
as 0); DIV fails with a division-by-zero error whenever the divisor
equals zero, and otherwise yields a float result if either operand is a
float and integer floor-style division if both operands are integers —
in particular `7 2 /` gives 3 and `7.0 2 /` gives 3.5. -/
theorem c5_arith_division_semantics :
    (∀ (S : Vm.VMState) (s : List Value) (a b : Value) (op : Opcode)
        (o : Option Vm.Operand) (ln : ℤ), S.stack = s ++ [a, b] →
      (op = .ADD ∨ op = .SUB ∨ op = .MUL ∨ op = .DIV) →
      ((Vm.numView a).isNone ∨ (Vm.numView b).isNone) →
      Vm.execute_instruction ⟨op, o, ln⟩ S = .error .typeMismatch)
  ∧ (∀ (S : Vm.VMState) (s : List Value) (a b : Value)
        (o : Option Vm.Operand) (ln : ℤ) (qa qb : ℚ), S.stack = s ++ [a, b] →
      Vm.numView a = some qa → Vm.numView b = some qb → qb = 0 →
      Vm.execute_instruction ⟨.DIV, o, ln⟩ S = .error .divisionByZero)
  ∧ (∀ (S : Vm.VMState) (s : List Value) (a b : Value)
        (o : Option Vm.Operand) (ln : ℤ) (qa qb : ℚ), S.stack = s ++ [a, b] →
      Vm.numView a = some qa → Vm.numView b = some qb → qb ≠ 0 →
      (Vm.isFloatV a || Vm.isFloatV b) = true →
      Vm.execute_instruction ⟨.DIV, o, ln⟩ S =
        .ok {S with stack := s ++ [.vFloat (qa / qb)]})
  ∧ (∀ (S : Vm.VMState) (s : List Value) (x y : ℤ)
        (o : Option Vm.Operand) (ln : ℤ), S.stack = s ++ [.vInt x, .vInt y] →
      y ≠ 0 →
      Vm.execute_instruction ⟨.DIV, o, ln⟩ S =
        .ok {S with stack := s ++ [.vInt (Int.fdiv x y)]})
  ∧ (Vm.execute_instruction ⟨.DIV, none, 0⟩ {stack := [.vInt 7, .vInt 2]} =
      .ok ({stack := [.vInt 3]} : Vm.VMState))
  ∧ (Vm.execute_instruction ⟨.DIV, none, 0⟩ {stack := [.vFloat 7, .vInt 2]} =
      .ok ({stack := [.vFloat (7 / 2)]} : Vm.VMState)) := by
  refine ⟨?_, ?_, ?_, ?_, by rfl, by rfl⟩
  · intro S s a b op o ln h hop hnone
    have h2 : S.stack = (s ++ [a]) ++ [b] := by simp [h]
    rcases hop with rfl | rfl | rfl | rfl <;>
      simp only [Vm.execute_instruction, Vm.popV_concat S (s ++ [a]) b h2,
        Vm.popV_concat {S with stack := s ++ [a]} s a (by simp)] <;>
      rcases hx : Vm.numView a with _ | qa <;>
      rcases hy : Vm.numView b with _ | qb <;>
      simp_all
  · intro S s a b o ln qa qb h ha hb hz
    have h2 : S.stack = (s ++ [a]) ++ [b] := by simp [h]
    simp only [Vm.execute_instruction, Vm.popV_concat S (s ++ [a]) b h2,
      Vm.popV_concat {S with stack := s ++ [a]} s a (by simp), ha, hb]
    simp [hz]
  · intro S s a b o ln qa qb h ha hb hz hfl
    have h2 : S.stack = (s ++ [a]) ++ [b] := by simp [h]
    simp only [Vm.execute_instruction, Vm.popV_concat S (s ++ [a]) b h2,
      Vm.popV_concat {S with stack := s ++ [a]} s a (by simp), ha, hb]
    simp [hz, hfl, Vm.push]
  · intro S s x y o ln h hy
    have h2 : S.stack = (s ++ [.vInt x]) ++ [.vInt y] := by simp [h]
    simp only [Vm.execute_instruction, Vm.popV_concat S (s ++ [.vInt x]) (.vInt y) h2,
      Vm.popV_concat {S with stack := s ++ [.vInt x]} s (.vInt x) (by simp)]
    simp [Vm.numView, Vm.isFloatV, Vm.intView, Vm.push, hy]

theorem shrinkAux_take (fuel : ℕ) (vs : List Value) (bp : ℕ)
    (hb : bp ≤ vs.length) (hf : vs.length ≤ fuel) :
    Vm.shrinkAux fuel vs (bp : ℤ) = .ok (vs.take bp) := by
  induction fuel generalizing vs with
  | zero =>
    have hz : vs = [] := List.length_eq_zero.mp (Nat.le_zero.mp hf)
    subst hz
    simp [Vm.shrinkAux]
  | succ fuel ih =>
    by_cases hlt : (bp : ℤ) < (vs.length : ℤ)
    · rcases vs.eq_nil_or_concat with rfl | ⟨L, a, rfl⟩
      · simp at hlt
        omega
      · simp only [List.concat_eq_append] at hb hf hlt ⊢
        have hbL : bp ≤ L.length := by
          simp at hlt
          omega
        have hfL : L.length ≤ fuel := by
          simp at hf
          omega
        simp only [Vm.shrinkAux, if_pos hlt, List.getLast?_concat,
          List.dropLast_concat]
        rw [ih L hbL hfL]
        rw [List.take_append_of_le_length hbL]
    · have hbe : bp = vs.length := by
        have := not_lt.mp hlt
        exact_mod_cast le_antisymm hb (by exact_mod_cast this)
      simp [Vm.shrinkAux, if_neg hlt, hbe]

/-- Claim C3.  Calling convention of the VM (vm.py lines 376-402).
CALL with a pool index holding the name of a declared function pushes a
new frame whose program counter is 0 (the function's first instruction)
and whose base pointer is the current operand-stack depth minus the
declared parameter count.  RETURN pops the current (top) frame, pops one
value as the return value, discards every operand-stack value above that
frame's recorded base pointer, and pushes the return value back, so the
operand stack afterwards consists of its first base-pointer values
followed by the return value. -/
theorem c3_call_return_convention :
    (∀ (S : Vm.VMState) (i : ℕ) (name : List Char) (f : Vm.Function) (ln : ℤ),
        S.constants[i]? = some (.vStr name) →
        dictLookup S.functions name = some f →
        Vm.execute_instruction ⟨.CALL, some (.oInt (i : ℤ)), ln⟩ S =
          .ok {S with call_stack := S.call_stack ++
                [⟨f.instructions, 0, (S.stack.length : ℤ) - f.param_count, []⟩]})
  ∧ (∀ (S : Vm.VMState) (cs : List Vm.Frame) (fr : Vm.Frame) (bp : ℕ)
        (vs : List Value) (v : Value) (o : Option Vm.Operand) (ln : ℤ),
        S.call_stack = cs ++ [fr] → fr.base_pointer = (bp : ℤ) →
        S.stack = vs ++ [v] → bp ≤ vs.length →
        Vm.execute_instruction ⟨.RETURN, o, ln⟩ S =
          .ok {S with call_stack := cs, stack := vs.take bp ++ [v]}) := by
  constructor
  · intro S i name f ln hc hf
    have hlt : i < S.constants.length := by
      by_contra hc2
      rw [List.getElem?_eq_none (not_lt.mp hc2)] at hc
      cases hc
    have hif : ¬ ((S.constants.length : ℤ) ≤ (i : ℤ)) := by
      exact_mod_cast not_le.mpr hlt
    simp only [Vm.execute_instruction, Vm.constFetch, if_neg hif,
      Vm.pyListGet, Int.toNat_natCast]
    rw [if_pos (by positivity), hc]
    simp [hf]
  · intro S cs fr bp vs v o ln hcs hbp hst hb
    simp only [Vm.execute_instruction, hcs, List.getLast?_concat,
      List.dropLast_concat]
    rw [Vm.popV_concat ({S with call_stack := cs}) vs v hst]
    simp only [Vm.shrinkStack, hbp]
    rw [shrinkAux_take vs.length vs bp hb le_rfl]
    simp [Vm.push]

/-! ## Constant-pool lemmas (claims C7 and C10) -/

open Compiler

theorem listContains_iff (pool : List Value) (v : Value) :
    listContains pool v = true ↔ ∃ c ∈ pool, pyEq c v = true := by
  simp [listContains, List.any_eq_true]

theorem listIndex_first (pool : List Value) (v : Value)
    (h : listContains pool v = true) :
    ∃ c, pool[listIndex pool v]? = some c ∧ pyEq c v = true ∧
      ∀ j, j < listIndex pool v → ∀ c', pool[j]? = some c' → pyEq c' v = false := by
  induction pool with
  | nil => simp [listContains] at h
  | cons a rest ih =>
    by_cases ha : pyEq a v = true
    · exact ⟨a, by simp [listIndex, ha], ha, by simp [listIndex, ha]⟩
    · have ha' : pyEq a v = false := by revert ha; cases pyEq a v <;> simp
      have hrest : listContains rest v = true := by
        simp [listContains, ha'] at h
        simpa [listContains] using h
      obtain ⟨c, hc1, hc2, hc3⟩ := ih hrest
      refine ⟨c, by simpa [listIndex, ha'] using hc1, hc2, ?_⟩
      intro j hj c' hc'
      simp [listIndex, ha'] at hj
      cases j with
      | zero =>
        simp at hc'
        subst hc'
        exact ha'
      | succ j =>
        simp only [List.getElem?_cons_succ] at hc'
        exact hc3 j (by omega) c' hc'

theorem add_constant_new (pool : List Value) (v : Value)
    (h : ∀ c ∈ pool, pyEq c v = false) :
    add_constant pool v = (pool.length, pool ++ [v]) := by
  have hc : listContains pool v = false := by
    rw [← Bool.not_eq_true, listContains_iff]
    push_neg
    intro c hm
    simp [h c hm]
  simp [add_constant, hc]

theorem pyEq_refl_scalar (v : Value) (hs : v.isScalar) : pyEq v v = true := by
  cases v <;> simp_all [pyEq, pyEqGo, Value.isScalar, Value.pySize]

theorem listIndex_append_first (pool : List Value) (u w : Value)
    (h : ∀ c ∈ pool, pyEq c w = false) (hw : pyEq u w = true) :
    listIndex (pool ++ [u]) w = pool.length := by
  induction pool with
  | nil => simp [listIndex, hw]
  | cons a rest ih =>
    have ha := h a (by simp)
    simp [listIndex, ha, ih (fun c hm => h c (by simp [hm]))]

theorem add_constant_idem (pool : List Value) (v : Value) (hs : v.isScalar) :
    add_constant (add_constant pool v).2 v =
      ((add_constant pool v).1, (add_constant pool v).2) := by
  by_cases hc : listContains pool v = true
  · simp [add_constant, hc]
  · have hc' : listContains pool v = false := by
      revert hc; cases listContains pool v <;> simp
    have hall : ∀ c ∈ pool, pyEq c v = false := by
      intro c hm
      by_contra hne
      have : pyEq c v = true := by revert hne; cases pyEq c v <;> simp
      exact absurd ((listContains_iff pool v).mpr ⟨c, hm, this⟩) (by simp [hc'])
    have h2 : listContains (pool ++ [v]) v = true :=
      (listContains_iff _ v).mpr ⟨v, by simp, pyEq_refl_scalar v hs⟩
    simp only [add_constant, hc', if_false, Bool.false_eq_true]
    simp only [h2, if_true]
    rw [listIndex_append_first pool v v hall (pyEq_refl_scalar v hs)]

theorem interned_pairwise (pool : List Value) (h : Interned pool) :
    List.Pairwise (fun a b => pyEq a b = false) pool := by
  induction h with
  | nil => exact List.Pairwise.nil
  | step l v hI ih =>
    by_cases hc : listContains l v = true
    · simpa [add_constant, hc] using ih
    · have hc' : listContains l v = false := by
        revert hc; cases listContains l v <;> simp
      have hall : ∀ c ∈ l, pyEq c v = false := by
        intro c hm
        by_contra hne
        have : pyEq c v = true := by revert hne; cases pyEq c v <;> simp
        exact absurd ((listContains_iff l v).mpr ⟨c, hm, this⟩) (by simp [hc'])
      simp only [add_constant, hc', if_false, Bool.false_eq_true]
      rw [List.pairwise_append]
      exact ⟨ih, List.pairwise_singleton _ _, by simpa using hall⟩

/-- Claim C7.  Constant-pool deduplication (compiler.py add_constant,
lines 728-733): interning a value with an `==`-equal entry already in the
pool leaves the pool unchanged and returns the index of the first such
entry; interning a value with no `==`-equal entry appends it at the end
(lookup-before-insert, append-only); interning the same literal value
twice returns the same index the second time without growing the pool;
and every pool the generator can build (from the empty pool through
`add_constant`) has no two `==`-equal entries. -/
theorem c7_constant_pool_dedup :
    (∀ (pool : List Value) (v : Value), (∃ c ∈ pool, pyEq c v = true) →
      (add_constant pool v).2 = pool ∧
        ∃ c, pool[(add_constant pool v).1]? = some c ∧ pyEq c v = true ∧
          ∀ j, j < (add_constant pool v).1 → ∀ c', pool[j]? = some c' →
            pyEq c' v = false)
  ∧ (∀ (pool : List Value) (v : Value), (∀ c ∈ pool, pyEq c v = false) →
      add_constant pool v = (pool.length, pool ++ [v]))
  ∧ (∀ (pool : List Value) (v : Value), v.isScalar →
      add_constant (add_constant pool v).2 v =
        ((add_constant pool v).1, (add_constant pool v).2))
  ∧ (∀ pool : List Value, Interned pool →
      List.Pairwise (fun a b => pyEq a b = false) pool) := by
  refine ⟨?_, add_constant_new, add_constant_idem, interned_pairwise⟩
  intro pool v h
  have hc : listContains pool v = true := (listContains_iff pool v).mpr h
  constructor
  · simp [add_constant, hc]
  · simpa [add_constant, hc] using listIndex_first pool v hc

/-- Witness for claim C7 at concrete inputs. -/
theorem c7_constant_pool_dedup_witness :
    ((add_constant [.vInt 5] (.vFloat 5)).2 = [.vInt 5])
  ∧ (add_constant [] (.vInt 5) = (0, [.vInt 5]))
  ∧ (add_constant (add_constant [] (.vInt 5)).2 (.vInt 5) = (0, [.vInt 5]))
  ∧ List.Pairwise (fun a b => pyEq a b = false)
      (add_constant (add_constant [] (.vInt 1)).2 (.vStr (("x").toList))).2 := by
  refine ⟨(c7_constant_pool_dedup.1 [.vInt 5] (.vFloat 5)
      ⟨.vInt 5, by simp, by decide⟩).1,
    c7_constant_pool_dedup.2.1 [] _ (by simp),
    (c7_constant_pool_dedup.2.2.1 [] (.vInt 5) trivial).trans rfl,
    c7_constant_pool_dedup.2.2.2 _ (.step _ _ (.step _ _ .nil))⟩

theorem pyEq_num_congr (z : ℤ) (q : ℚ) (hq : (z : ℚ) = q) (c : Value) :
    pyEq c (.vFloat q) = pyEq c (.vInt z) := by
  cases c with
  | vInt x => simp [pyEq, pyEqGo, Value.pySize, ← hq, beq_iff_eq, Int.cast_inj]
  | vFloat x => simp [pyEq, pyEqGo, Value.pySize, hq]
  | vBool b =>
    cases b <;>
      simp only [pyEq, pyEqGo, Value.pySize, ← hq, beq_iff_eq, if_true, if_false] <;>
      simp [eq_iff_iff] <;>
      constructor <;> intro h2 <;> exact_mod_cast h2
  | vStr s => rfl
  | vNone => rfl
  | vArr l =>
    have h1 : ∀ fuel, pyEqGo fuel (.vals (.vArr l) (.vFloat q)) = false :=
      fun fuel => by cases fuel <;> rfl
    have h2 : ∀ fuel, pyEqGo fuel (.vals (.vArr l) (.vInt z)) = false :=
      fun fuel => by cases fuel <;> rfl
    simp [pyEq, h1, h2]
  | vDict d =>
    have h1 : ∀ fuel, pyEqGo fuel (.vals (.vDict d) (.vFloat q)) = false :=
      fun fuel => by cases fuel <;> rfl
    have h2 : ∀ fuel, pyEqGo fuel (.vals (.vDict d) (.vInt z)) = false :=
      fun fuel => by cases fuel <;> rfl
    simp [pyEq, h1, h2]

/-- Claim C10.  Constant interning uses Python's cross-type value
equality: a float literal interned after an integer literal of equal
numeric value receives the index of the existing integer entry and adds
nothing to the pool; concretely, compiling the RPN text `1 1.0` yields
the single pool entry `int 1` with both emitted loads referencing index
0, and executing that load pushes the originally interned integer value
(not a float). -/
theorem c10_cross_type_interning :
    (∀ (pool : List Value) (z : ℤ) (q : ℚ), (z : ℚ) = q →
      add_constant (add_constant pool (.vInt z)).2 (.vFloat q) =
        ((add_constant pool (.vInt z)).1, (add_constant pool (.vInt z)).2))
  ∧ (generate_rpn_expression (("1 1.0").toList) 1
        {constants := [], functions := [],
         cur := some ⟨("main").toList, 0, []⟩, instructions := []} =
      .ok {constants := [.vInt 1], functions := [],
           cur := some ⟨("main").toList, 0,
             [⟨.LOAD_CONST, some 0, 1⟩, ⟨.LOAD_CONST, some 0, 1⟩]⟩,
           instructions := []})
  ∧ (Vm.execute_instruction ⟨.LOAD_CONST, some (.oInt 0), 0⟩
        {constants := [.vInt 1]} =
      .ok ({constants := [.vInt 1], stack := [.vInt 1]} : Vm.VMState)) := by
  refine ⟨?_, by rfl, by rfl⟩
  intro pool z q hq
  have hcongr : ∀ c, pyEq c (.vFloat q) = pyEq c (.vInt z) := pyEq_num_congr z q hq
  have hrefl : pyEq (.vInt z) (.vFloat q) = true := by
    rw [hcongr]; exact pyEq_refl_scalar _ trivial
  by_cases hc : listContains pool (.vInt z) = true
  · have hcq : listContains pool (.vFloat q) = true := by
      simpa [listContains, hcongr] using hc
    have hidx : listIndex pool (.vFloat q) = listIndex pool (.vInt z) := by
      clear hc hcq
      induction pool with
      | nil => rfl
      | cons a rest ih => simp [listIndex, hcongr a, ih]
    simp [add_constant, hc, hcq, hidx]
  · have hc' : listContains pool (.vInt z) = false := by
      revert hc; cases listContains pool (.vInt z) <;> simp
    have hall : ∀ c ∈ pool, pyEq c (.vInt z) = false := by
      intro c hm
      by_contra hne
      have : pyEq c (.vInt z) = true := by revert hne; cases pyEq c (.vInt z) <;> simp
      exact absurd ((listContains_iff pool _).mpr ⟨c, hm, this⟩) (by simp [hc'])
    have hallq : ∀ c ∈ pool, pyEq c (.vFloat q) = false := by
      intro c hm; rw [hcongr]; exact hall c hm
    have h2 : listContains (pool ++ [.vInt z]) (.vFloat q) = true :=
      (listContains_iff _ _).mpr ⟨.vInt z, by simp, hrefl⟩
    simp only [add_constant, hc', if_false, Bool.false_eq_true]
    simp only [h2, if_true]
    rw [listIndex_append_first pool (.vInt z) (.vFloat q) hallq hrefl]

/-- Witness for claim C10's universally quantified part, at `1` and
`1.0`. -/
theorem c10_cross_type_interning_witness :
    add_constant (add_constant [] (.vInt 1)).2 (.vFloat 1) = (0, [.vInt 1]) :=
  (c10_cross_type_interning.1 [] 1 1 (by norm_num)).trans rfl

/-- Witness for claim C8 on the concrete stack 1, 2, 3 (3 on top). -/
theorem c8_stack_shuffle_laws_witness :
    (Vm.execute_instruction ⟨.ROT, none, 0⟩
        ({stack := [.vInt 1, .vInt 2, .vInt 3]} : Vm.VMState) =
      .ok ({stack := [.vInt 2, .vInt 3, .vInt 1]} : Vm.VMState))
  ∧ ((Vm.execute_instruction ⟨.ROT, none, 0⟩
        ({stack := [.vInt 1, .vInt 2, .vInt 3]} : Vm.VMState) >>= fun S1 =>
        Vm.execute_instruction ⟨.ROT, none, 0⟩ S1 >>= fun S2 =>
          Vm.execute_instruction ⟨.ROT, none, 0⟩ S2) =
      .ok ({stack := [.vInt 1, .vInt 2, .vInt 3]} : Vm.VMState))
  ∧ ((Vm.execute_instruction ⟨.SWAP, none, 0⟩
        ({stack := [.vInt 1, .vInt 2]} : Vm.VMState) >>= fun S1 =>
          Vm.execute_instruction ⟨.SWAP, none, 0⟩ S1) =
      .ok ({stack := [.vInt 1, .vInt 2]} : Vm.VMState))
  ∧ ((Vm.execute_instruction ⟨.DUP, none, 0⟩
        ({stack := [.vInt 1]} : Vm.VMState) >>= fun S1 =>
          Vm.execute_instruction ⟨.DROP, none, 0⟩ S1) =
      .ok ({stack := [.vInt 1]} : Vm.VMState)) :=
  ⟨c8_stack_shuffle_laws.1 _ [] (.vInt 1) (.vInt 2) (.vInt 3) none 0 rfl,
   c8_stack_shuffle_laws.2.1 _ [] (.vInt 1) (.vInt 2) (.vInt 3) rfl,
   c8_stack_shuffle_laws.2.2.1 _ [] (.vInt 1) (.vInt 2) rfl,
   c8_stack_shuffle_laws.2.2.2 _ [] (.vInt 1) rfl⟩

/-- Witness for claim C3: calling a 2-parameter function with stack depth
3 records base pointer 1; returning over base pointer 1 from stack
`10 20 30 40` leaves `10 40`. -/
theorem c3_call_return_convention_witness :
    (Vm.execute_instruction ⟨.CALL, some (.oInt 0), 0⟩
        ({constants := [.vStr (("f").toList)],
          functions := [((("f").toList), ⟨("f").toList, 2, []⟩)],
          stack := [.vInt 1, .vInt 2, .vInt 3]} : Vm.VMState) =
      .ok {constants := [.vStr (("f").toList)],
           functions := [((("f").toList), ⟨("f").toList, 2, []⟩)],
           stack := [.vInt 1, .vInt 2, .vInt 3],
           call_stack := [⟨[], 0, 1, []⟩]})
  ∧ (Vm.execute_instruction ⟨.RETURN, none, 0⟩
        ({stack := [.vInt 10, .vInt 20, .vInt 30, .vInt 40],
          call_stack := [⟨[], 5, 1, []⟩]} : Vm.VMState) =
      .ok ({stack := [.vInt 10, .vInt 40]} : Vm.VMState)) :=
  ⟨c3_call_return_convention.1 _ 0 (("f").toList) ⟨("f").toList, 2, []⟩ 0 rfl rfl,
   c3_call_return_convention.2 _ [] ⟨[], 5, 1, []⟩ 1
     [.vInt 10, .vInt 20, .vInt 30] (.vInt 40) none 0 rfl rfl rfl (by norm_num)⟩

/-- Witness for claim C5's amended statement at concrete operands. -/
theorem c5_arith_division_semantics_witness :
    (Vm.execute_instruction ⟨.ADD, none, 0⟩
        ({stack := [.vStr (("a").toList), .vInt 1]} : Vm.VMState) =
      .error .typeMismatch)
  ∧ (Vm.execute_instruction ⟨.DIV, none, 0⟩
        ({stack := [.vInt 5, .vInt 0]} : Vm.VMState) = .error .divisionByZero)
  ∧ (Vm.execute_instruction ⟨.DIV, none, 0⟩
        ({stack := [.vFloat 7, .vInt 2]} : Vm.VMState) =
      .ok ({stack := [.vFloat (7 / 2)]} : Vm.VMState))
  ∧ (Vm.execute_instruction ⟨.DIV, none, 0⟩
        ({stack := [.vInt 7, .vInt 2]} : Vm.VMState) =
      .ok ({stack := [.vInt 3]} : Vm.VMState)) :=
  ⟨c5_arith_division_semantics.1 _ [] (.vStr (("a").toList)) (.vInt 1) .ADD
      none 0 rfl (Or.inl rfl) (Or.inl rfl),
   c5_arith_division_semantics.2.1 _ [] (.vInt 5) (.vInt 0) none 0 5 0
      rfl rfl rfl rfl,
   c5_arith_division_semantics.2.2.1 _ [] (.vFloat 7) (.vInt 2) none 0 7 2
      rfl rfl rfl (by norm_num) rfl,
   c5_arith_division_semantics.2.2.2.1 _ [] 7 2 none 0 rfl (by norm_num)⟩

/-! ## Serialized instruction round trip (claim C6) -/

theorem digit_ne_space (c : Char) (h : c.isDigit = true) : c ≠ ' ' :=
  fun he => absurd h (by subst he; decide)

theorem digit_not_pyspace (c : Char) (h : c.isDigit = true) :
    pyIsSpace c = false := by
  by_contra hc
  have h2 : pyIsSpace c = true := by revert hc; cases pyIsSpace c <;> simp
  simp only [pyIsSpace, Bool.or_eq_true, beq_iff_eq] at h2
  rcases h2 with ((((h1 | h1) | h1) | h1) | h1) | h1 <;> subst h1 <;>
    exact absurd h (by decide)

theorem chrOfDigit_isDigit (d : ℕ) : (chrOfDigit d).isDigit = true := by
  unfold chrOfDigit
  split <;> decide

theorem digitVal_chrOfDigit (d : ℕ) (h : d < 10) :
    digitVal (chrOfDigit d) = d := by
  interval_cases d <;> decide

theorem natChars_ne_nil (n : ℕ) : natChars n ≠ [] := by
  unfold natChars
  split
  · simp
  · rename_i h
    have hd : Nat.digits 10 n ≠ [] := Nat.digits_ne_nil_iff_ne_zero.mpr h
    simp [hd]

theorem natChars_all_digit (n : ℕ) : ∀ c ∈ natChars n, c.isDigit = true := by
  intro c hc
  unfold natChars at hc
  split at hc
  · simp at hc
    subst hc
    decide
  · simp only [List.mem_map, List.mem_reverse] at hc
    obtain ⟨d, _, rfl⟩ := hc
    exact chrOfDigit_isDigit d

theorem parseAcc_digits (ds : List ℕ) (a : ℕ) (h : ∀ d ∈ ds, d < 10) :
    parseAcc a (ds.reverse.map chrOfDigit) =
      a * 10 ^ ds.length + Nat.ofDigits 10 ds := by
  induction ds generalizing a with
  | nil => simp [parseAcc]
  | cons d t ih =>
    have hd : d < 10 := h d (by simp)
    simp only [List.reverse_cons, List.map_append, List.map_cons, List.map_nil,
      parseAcc] at ih ⊢
    rw [List.foldl_append]
    rw [ih a (fun d2 hd2 => h d2 (by simp [hd2]))]
    simp only [List.foldl_cons, List.foldl_nil, digitVal_chrOfDigit d hd,
      Nat.ofDigits_cons, List.length_cons]
    ring

theorem parseAcc_natChars (n : ℕ) : parseAcc 0 (natChars n) = n := by
  unfold natChars
  split
  · rename_i h
    subst h
    decide
  · rw [parseAcc_digits _ 0 (fun d hd => Nat.digits_lt_base (by norm_num) hd)]
    simp [Nat.ofDigits_digits]

theorem pyNat_natChars (n : ℕ) : pyNatOfChars (natChars n) = some n := by
  unfold pyNatOfChars
  rw [if_pos ⟨natChars_ne_nil n, by simpa [List.all_eq_true] using natChars_all_digit n⟩]
  rw [parseAcc_natChars]

theorem pyInt_intChars (z : ℤ) : pyIntOfChars (intChars z) = some z := by
  by_cases hz : z < 0
  · simp only [intChars, if_pos hz, pyIntOfChars]
    simp [pyNat_natChars, Int.ofNat_natAbs_of_nonpos (le_of_lt hz)]
  · simp only [intChars, if_neg hz]
    obtain ⟨c, t, hct⟩ : ∃ c t, natChars z.toNat = c :: t := by
      cases hnc : natChars z.toNat with
      | nil => exact absurd hnc (natChars_ne_nil _)
      | cons c t => exact ⟨c, t, rfl⟩
    have hdig : c.isDigit = true := natChars_all_digit z.toNat c (by simp [hct])
    have hc1 : (c == '-') = false := by
      cases hcc : c == '-' with
      | false => rfl
      | true =>
        have he : c = '-' := by simpa using hcc
        exact absurd hdig (by subst he; decide)
    have hc2 : (c == '+') = false := by
      cases hcc : c == '+' with
      | false => rfl
      | true =>
        have he : c = '+' := by simpa using hcc
        exact absurd hdig (by subst he; decide)
    rw [hct]
    simp only [pyIntOfChars, hc1, hc2, Bool.false_eq_true, if_false]
    rw [← hct, pyNat_natChars]
    simp
    omega

theorem intChars_ne_nil (z : ℤ) : intChars z ≠ [] := by
  unfold intChars
  split
  · simp
  · exact natChars_ne_nil _

theorem intChars_not_space (z : ℤ) :
    ∀ c ∈ intChars z, c ≠ ' ' ∧ pyIsSpace c = false := by
  intro c hc
  unfold intChars at hc
  split at hc
  · rcases List.mem_cons.mp hc with rfl | hc2
    · exact ⟨by decide, by decide⟩
    · have hd := natChars_all_digit _ c hc2
      exact ⟨digit_ne_space c hd, digit_not_pyspace c hd⟩
  · have hd := natChars_all_digit _ c hc
    exact ⟨digit_ne_space c hd, digit_not_pyspace c hd⟩

theorem splitFirstSpace_no_space (A : List Char) (h : ∀ c ∈ A, c ≠ ' ') :
    splitFirstSpace A = (A, none) := by
  induction A with
  | nil => rfl
  | cons a A ih =>
    simp only [splitFirstSpace, if_neg (h a (by simp))]
    simp [ih (fun c hc => h c (by simp [hc]))]

theorem splitFirstSpace_append (A B : List Char) (h : ∀ c ∈ A, c ≠ ' ') :
    splitFirstSpace (A ++ ' ' :: B) = (A, some B) := by
  induction A with
  | nil => simp [splitFirstSpace]
  | cons a A ih =>
    simp only [List.cons_append, splitFirstSpace, if_neg (h a (by simp))]
    simp [ih (fun c hc => h c (by simp [hc]))]

theorem dropWhile_eq_self_of_head (p : Char → Bool) (l : List Char)
    (h : ∀ c, l.head? = some c → p c = false) : l.dropWhile p = l := by
  cases l with
  | nil => rfl
  | cons c t => simp [List.dropWhile_cons, h c rfl]

theorem stripChars_eq_self (s : List Char)
    (h1 : ∀ c, s.head? = some c → pyIsSpace c = false)
    (h2 : ∀ c, s.getLast? = some c → pyIsSpace c = false) :
    Vm.stripChars s = s := by
  unfold Vm.stripChars
  rw [dropWhile_eq_self_of_head _ s h1]
  rw [dropWhile_eq_self_of_head _ s.reverse
    (fun c hc => h2 c (by rwa [List.head?_reverse] at hc))]
  exact List.reverse_reverse s

theorem pyName_facts (op : Opcode) :
    opcodeOfName op.pyName = some op ∧ op.pyName ≠ [] ∧
      ∀ c ∈ op.pyName, c ≠ ' ' ∧ pyIsSpace c = false := by
  cases op <;> exact ⟨rfl, by decide, by decide⟩

/-- Claim C6.  Serialization round trip: for every instruction the
compiler emits — its operand being absent or an integer pool index /
jump target — serializing it with `Instruction.__str__` (the opcode name,
optionally one space and the operand's text) and parsing the text back
with the loader's `Instruction.from_string` (strip, split once on a
space, enum lookup, then integer parse before float parse before raw
string) reconstructs an instruction with the same opcode and the same
operand value (the loader resets the line to 0). -/
theorem c6_serialization_round_trip (op : Opcode) (o : Option ℤ) (ln : ℤ) :
    Vm.Instruction.from_string (Compiler.Instruction.toChars ⟨op, o, ln⟩) =
      some ⟨op, o.map Vm.Operand.oInt, 0⟩ := by
  obtain ⟨hlookup, hnn, hchars⟩ := pyName_facts op
  cases o with
  | none =>
    show Vm.Instruction.from_string op.pyName = _
    unfold Vm.Instruction.from_string
    rw [stripChars_eq_self _
      (fun c hc => (hchars c (List.mem_of_mem_head? hc)).2)
      (fun c hc => (hchars c (List.mem_of_mem_getLast? hc)).2)]
    rw [splitFirstSpace_no_space _ (fun c hc => (hchars c hc).1)]
    simp [hlookup]
  | some z =>
    show Vm.Instruction.from_string (op.pyName ++ ' ' :: intChars z) = _
    unfold Vm.Instruction.from_string
    obtain ⟨c0, t0, hn⟩ : ∃ c0 t0, op.pyName = c0 :: t0 := by
      cases hcc : op.pyName with
      | nil => exact absurd hcc hnn
      | cons c0 t0 => exact ⟨c0, t0, rfl⟩
    obtain ⟨dlast, zrest, hz⟩ : ∃ d r, intChars z = r ++ [d] := by
      rcases (intChars z).eq_nil_or_concat with hcc | ⟨r, d, hcc⟩
      · exact absurd hcc (intChars_ne_nil z)
      · exact ⟨d, r, by simpa using hcc⟩
    rw [stripChars_eq_self _ ?hhead ?hlast]
    case hhead =>
      intro c hc
      rw [hn] at hc
      simp only [List.cons_append, List.head?_cons, Option.some.injEq] at hc
      rw [← hc]
      exact (hchars c0 (by simp [hn])).2
    case hlast =>
      intro c hc
      rw [hz, show op.pyName ++ ' ' :: (zrest ++ [dlast]) =
            (op.pyName ++ ' ' :: zrest) ++ [dlast] by simp] at hc
      rw [List.getLast?_concat] at hc
      cases hc
      exact (intChars_not_space z dlast (by simp [hz])).2
    rw [splitFirstSpace_append _ _ (fun c hc => (hchars c hc).1)]
    simp only [hlookup, Option.map_some']
    have hop : Vm.parseOperand (intChars z) = .oInt z := by
      unfold Vm.parseOperand
      rw [pyInt_intChars]
    simp [hop]

/-! ## Code-generator layout lemmas (claims C1, C2 and C9) -/

theorem setOperand_append (A D : List Compiler.Instruction) (k : ℕ) (v : ℤ) :
    setOperand (A ++ D) (A.length + k) v = A ++ setOperand D k v := by
  unfold setOperand
  rw [List.getElem?_append_right (by omega), Nat.add_sub_cancel_left]
  cases hget : D[k]? with
  | none => rfl
  | some ins =>
    dsimp only
    rw [List.set_append_right _ _ (by omega), Nat.add_sub_cancel_left]

theorem setOperand_cons_zero (x : Compiler.Instruction)
    (l : List Compiler.Instruction) (v : ℤ) :
    setOperand (x :: l) 0 v = {x with operand := some v} :: l := by
  unfold setOperand
  simp

theorem curExtends_refl (g : Gen) : curExtends g g :=
  ⟨fun f h => ⟨[], by simp [h]⟩, id⟩

theorem curExtends_of_cur_eq (g g' : Gen) (h : g'.cur = g.cur) :
    curExtends g g' :=
  ⟨fun f hf => ⟨[], by simp [h, hf]⟩, fun hf => by simp [h, hf]⟩

theorem curExtends_trans (g1 g2 g3 : Gen) (h1 : curExtends g1 g2)
    (h2 : curExtends g2 g3) : curExtends g1 g3 := by
  obtain ⟨a1, b1⟩ := h1
  obtain ⟨a2, b2⟩ := h2
  constructor
  · intro f hf
    obtain ⟨D1, hd1⟩ := a1 f hf
    obtain ⟨D2, hd2⟩ := a2 _ hd1
    exact ⟨D1 ++ D2, by simpa [List.append_assoc] using hd2⟩
  · exact fun hf => b2 (b1 hf)

theorem emit_curExtends (g : Gen) (ins : Compiler.Instruction) :
    curExtends g (emit g ins) := by
  constructor
  · intro f h
    exact ⟨[ins], by simp [emit, h]⟩
  · intro h
    simp [emit, h]

theorem addConst_cur (g : Gen) (v : Value) : (g.addConst v).2.cur = g.cur := rfl

theorem rpnStep_curExtends (ln : ℤ) (g : Gen) (t : RpnTok) (g' : Gen)
    (h : rpnStep ln g t = .ok g') : curExtends g g' := by
  cases t with
  | tInt s =>
    simp only [rpnStep] at h
    cases h
    exact curExtends_trans _ _ _ (curExtends_of_cur_eq _ _ (addConst_cur g _))
      (emit_curExtends _ _)
  | tFloat s =>
    simp only [rpnStep] at h
    cases hq : pyFloatOfChars s with
    | none => rw [hq] at h; cases h
    | some q =>
      rw [hq] at h
      cases h
      exact curExtends_trans _ _ _ (curExtends_of_cur_eq _ _ (addConst_cur g _))
        (emit_curExtends _ _)
  | tStr s =>
    simp only [rpnStep] at h
    cases h
    exact curExtends_trans _ _ _ (curExtends_of_cur_eq _ _ (addConst_cur g _))
      (emit_curExtends _ _)
  | tIdent s =>
    simp only [rpnStep] at h
    cases hf : builtinOps.find? (fun p => p.1 == s) with
    | some p =>
      rw [hf] at h
      cases h
      exact emit_curExtends _ _
    | none =>
      rw [hf] at h
      by_cases hd : (dictLookup g.functions s).isSome
      · rw [if_pos hd] at h
        cases h
        exact curExtends_trans _ _ _ (curExtends_of_cur_eq _ _ (addConst_cur g _))
          (emit_curExtends _ _)
      · rw [if_neg hd] at h
        cases h
        exact curExtends_trans _ _ _ (curExtends_of_cur_eq _ _ (addConst_cur g _))
          (emit_curExtends _ _)

theorem genRpnAux_curExtends (ln : ℤ) (ts : List RpnTok) :
    ∀ (g g' : Gen), genRpnAux ln ts g = .ok g' → curExtends g g' := by
  induction ts with
  | nil =>
    intro g g' h
    simp only [genRpnAux] at h
    cases h
    exact curExtends_refl g
  | cons t ts ih =>
    intro g g' h
    simp only [genRpnAux] at h
    cases hs : rpnStep ln g t with
    | error e => rw [hs] at h; cases h
    | ok g1 =>
      rw [hs] at h
      exact curExtends_trans _ _ _ (rpnStep_curExtends ln g t g1 hs) (ih g1 g' h)

theorem generate_rpn_expression_curExtends (text : List Char) (ln : ℤ)
    (g g' : Gen) (h : generate_rpn_expression text ln g = .ok g') :
    curExtends g g' :=
  genRpnAux_curExtends ln (tokenize_rpn_expression text) g g' h

theorem generate_rpn_expression_node_curExtends (node : AST) (g g' : Gen)
    (h : generate_rpn_expression_node node g = .ok g') : curExtends g g' := by
  cases node with
  | rpn text ln => exact generate_rpn_expression_curExtends text ln g g' h
  | program l => cases h; exact curExtends_refl g
  | functionDecl a b c => cases h; exact curExtends_refl g
  | variableDecl a b c d => cases h; exact curExtends_refl g
  | block l => cases h; exact curExtends_refl g
  | ifExpr a b c d => cases h; exact curExtends_refl g
  | whileLoop a b c => cases h; exact curExtends_refl g
  | forLoop a b c => cases h; exact curExtends_refl g

theorem emit_addConst_curExtends (g : Gen) (v : Value)
    (ins : Compiler.Instruction) :
    curExtends g (emit (g.addConst v).2 ins) :=
  curExtends_trans _ _ _ (curExtends_of_cur_eq _ _ (addConst_cur g v))
    (emit_curExtends _ _)

theorem curLen_ge (g g1 : Gen) (hx : curExtends g g1) (f : Compiler.Function)
    (hf : g.cur = some f) : f.instructions.length ≤ curLen g1 := by
  obtain ⟨D, hD⟩ := hx.1 f hf
  simp [curLen, hD]

theorem patch_curExtends (g gp : Gen) (f3 : Compiler.Function) (idx : ℕ)
    (v : ℤ) (hx : curExtends g gp) (hcur : gp.cur = some f3)
    (hidx : ∀ f, g.cur = some f → f.instructions.length ≤ idx) :
    curExtends g
      {gp with cur := some {f3 with instructions := setOperand f3.instructions idx v}} := by
  constructor
  · intro f hf
    obtain ⟨D, hD⟩ := hx.1 f hf
    have hf3 : f3 = ⟨f.name, f.param_count, f.instructions ++ D⟩ := by
      have := hcur.symm.trans hD
      injection this
    subst hf3
    have hk : idx = f.instructions.length + (idx - f.instructions.length) := by
      have := hidx f hf
      omega
    refine ⟨setOperand D (idx - f.instructions.length) v, ?_⟩
    rw [hk]
    simp [setOperand_append]
  · intro hf
    have h2 := hx.2 hf
    rw [hcur] at h2
    exact Option.noConfusion h2

theorem genRun_curExtends : ∀ (fuel : ℕ) (task : GenTask) (g g' : Gen),
    genRun fuel task g = .ok g' → curExtends g g' := by
  intro fuel
  induction fuel with
  | zero =>
    intro task g g' h
    simp only [genRun] at h
    exact Except.noConfusion h
  | succ fuel ih =>
    intro task g g' h
    cases task with
    | stmts l =>
      cases l with
      | nil =>
        simp only [genRun] at h
        cases h
        exact curExtends_refl g
      | cons x xs =>
        simp only [genRun] at h
        cases hx : genRun fuel (.stmt x) g with
        | error e => rw [hx] at h; exact Except.noConfusion h
        | ok g1 =>
          rw [hx] at h
          try dsimp only at h
          exact curExtends_trans _ _ _ (ih _ _ _ hx) (ih _ _ _ h)
    | exprs l =>
      cases l with
      | nil =>
        simp only [genRun] at h
        cases h
        exact curExtends_refl g
      | cons x xs =>
        simp only [genRun] at h
        cases hx : genRun fuel (.expr x) g with
        | error e => rw [hx] at h; exact Except.noConfusion h
        | ok g1 =>
          rw [hx] at h
          try dsimp only at h
          exact curExtends_trans _ _ _ (ih _ _ _ hx) (ih _ _ _ h)
    | decls l =>
      cases l with
      | nil =>
        simp only [genRun] at h
        cases h
        exact curExtends_refl g
      | cons x xs =>
        simp only [genRun] at h
        cases x with
        | functionDecl name pc body =>
          dsimp only at h
          cases hx : genRun fuel (.fnDecl name pc body) g with
          | error e => rw [hx] at h; exact Except.noConfusion h
          | ok g1 =>
            rw [hx] at h
            try dsimp only at h
            exact curExtends_trans _ _ _ (ih _ _ _ hx) (ih _ _ _ h)
        | program a => exact ih _ _ _ h
        | variableDecl a b c d => exact ih _ _ _ h
        | block a => exact ih _ _ _ h
        | ifExpr a b c d => exact ih _ _ _ h
        | whileLoop a b c => exact ih _ _ _ h
        | forLoop a b c => exact ih _ _ _ h
        | rpn a b => exact ih _ _ _ h
    | fnDecl name pc body =>
      simp only [genRun] at h
      cases hb : genRun fuel
          (.stmts body)
          {g with functions := dictInsert g.functions name ⟨name, pc, []⟩,
                  cur := some ⟨name, pc, []⟩} with
      | error e => rw [hb] at h; exact Except.noConfusion h
      | ok g2 =>
        rw [hb] at h
        try dsimp only at h
        cases hcur2 : g2.cur with
        | none => rw [hcur2] at h; exact Except.noConfusion h
        | some f2 =>
          rw [hcur2] at h
          try dsimp only at h
          cases h
          exact curExtends_of_cur_eq _ _ rfl
    | expr node =>
      cases node with
      | rpn text ln =>
        simp only [genRun] at h
        exact generate_rpn_expression_curExtends text ln g g' h
      | program children =>
        simp only [genRun] at h
        exact ih _ _ _ h
      | functionDecl a b body =>
        simp only [genRun] at h
        exact ih _ _ _ h
      | block children =>
        simp only [genRun] at h
        exact ih _ _ _ h
      | variableDecl a b init d =>
        simp only [genRun] at h
        cases init with
        | some e => exact ih _ _ _ h
        | none => cases h; exact curExtends_refl g
      | ifExpr cond thn els ln =>
        simp only [genRun] at h
        cases hc : genRun fuel (.expr cond) g with
        | error e => rw [hc] at h; exact Except.noConfusion h
        | ok g1 =>
          rw [hc] at h
          try dsimp only at h
          cases ht : genRun fuel (.exprs thn) g1 with
          | error e => rw [ht] at h; exact Except.noConfusion h
          | ok g2 =>
            rw [ht] at h
            try dsimp only at h
            have hx2 : curExtends g g2 :=
              curExtends_trans _ _ _ (ih _ _ _ hc) (ih _ _ _ ht)
            cases els with
            | none => cases h; exact hx2
            | some e2 =>
              exact curExtends_trans _ _ _ hx2 (ih _ _ _ h)
      | whileLoop cond body ln =>
        simp only [genRun] at h
        cases hc : genRun fuel (.expr cond) g with
        | error e => rw [hc] at h; exact Except.noConfusion h
        | ok g1 =>
          rw [hc] at h
          try dsimp only at h
          exact curExtends_trans _ _ _ (ih _ _ _ hc) (ih _ _ _ h)
      | forLoop cnt body ln =>
        simp only [genRun] at h
        cases hc : genRun fuel (.expr cnt) g with
        | error e => rw [hc] at h; exact Except.noConfusion h
        | ok g1 =>
          rw [hc] at h
          try dsimp only at h
          exact curExtends_trans _ _ _ (ih _ _ _ hc) (ih _ _ _ h)
    | stmt node =>
      cases node with
      | program children =>
        simp only [genRun] at h
        exact ih _ _ _ h
      | functionDecl a b body =>
        simp only [genRun] at h
        exact ih _ _ _ h
      | block children =>
        simp only [genRun] at h
        exact ih _ _ _ h
      | rpn text ln =>
        simp only [genRun] at h
        exact generate_rpn_expression_curExtends text ln g g' h
      | variableDecl name mu init ln =>
        simp only [genRun] at h
        cases init with
        | some e =>
          dsimp only at h
          cases hx : genRun fuel (.expr e) g with
          | error e2 => rw [hx] at h; exact Except.noConfusion h
          | ok g1 =>
            rw [hx] at h
            try dsimp only at h
            cases h
            exact curExtends_trans _ _ _ (ih _ _ _ hx)
              (emit_addConst_curExtends g1 _ _)
        | none =>
          cases h
          exact curExtends_trans _ _ _ (emit_addConst_curExtends g _ _)
            (emit_addConst_curExtends _ _ _)
      | whileLoop cond body ln =>
        simp only [genRun] at h
        cases hcur : g.cur with
        | none => rw [hcur] at h; exact Except.noConfusion h
        | some f =>
          rw [hcur] at h
          try dsimp only at h
          cases hc : generate_rpn_expression_node cond g with
          | error e => rw [hc] at h; exact Except.noConfusion h
          | ok g1 =>
            rw [hc] at h
            try dsimp only at h
            cases hb : genRun fuel (.stmts body) g1 with
            | error e => rw [hb] at h; exact Except.noConfusion h
            | ok g2 =>
              rw [hb] at h
              try dsimp only at h
              cases h
              exact curExtends_trans _ _ _
                (generate_rpn_expression_node_curExtends cond g g1 hc)
                (curExtends_trans _ _ _ (ih _ _ _ hb)
                  (curExtends_trans _ _ _ (emit_curExtends g2 _)
                    (emit_curExtends _ _)))
      | ifExpr cond thn els ln =>
        simp only [genRun] at h
        cases hc : generate_rpn_expression_node cond g with
        | error e => rw [hc] at h; exact Except.noConfusion h
        | ok g1 =>
          rw [hc] at h
          try dsimp only at h
          have hx1 : curExtends g g1 :=
            generate_rpn_expression_node_curExtends cond g g1 hc
          cases ht : genRun fuel (.stmts thn)
              (emit g1 ⟨.JUMP_IF_FALSE, some 0, ln⟩) with
          | error e => rw [ht] at h; exact Except.noConfusion h
          | ok g3 =>
            rw [ht] at h
            try dsimp only at h
            have hx3 : curExtends g g3 :=
              curExtends_trans _ _ _ hx1
                (curExtends_trans _ _ _ (emit_curExtends g1 _) (ih _ _ _ ht))
            cases els with
            | none =>
              cases hcur : g3.cur with
              | none => rw [hcur] at h; exact Except.noConfusion h
              | some f3 =>
                rw [hcur] at h
                try dsimp only at h
                cases h
                exact patch_curExtends g g3 f3 (curLen g1) _ hx3 hcur
                  (curLen_ge g g1 hx1)
            | some e2 =>
              cases hcur4 : (emit g3 ⟨.JUMP, some 0, ln⟩).cur with
              | none => rw [hcur4] at h; exact Except.noConfusion h
              | some f4 =>
                rw [hcur4] at h
                try dsimp only at h
                have hx4 : curExtends g (emit g3 ⟨.JUMP, some 0, ln⟩) :=
                  curExtends_trans _ _ _ hx3 (emit_curExtends g3 _)
                have hx5 : curExtends g
                    {emit g3 ⟨.JUMP, some 0, ln⟩ with cur := some {f4 with
                      instructions := setOperand f4.instructions (curLen g1)
                        (f4.instructions.length : ℤ)}} :=
                  patch_curExtends g _ f4 (curLen g1) _ hx4 hcur4
                    (curLen_ge g g1 hx1)
                cases he : genRun fuel (.stmts e2)
                    {emit g3 ⟨.JUMP, some 0, ln⟩ with cur := some {f4 with
                      instructions := setOperand f4.instructions (curLen g1)
                        (f4.instructions.length : ℤ)}} with
                | error e => rw [he] at h; exact Except.noConfusion h
                | ok g6 =>
                  rw [he] at h
                  try dsimp only at h
                  have hx6 : curExtends g g6 :=
                    curExtends_trans _ _ _ hx5 (ih _ _ _ he)
                  cases hcur6 : g6.cur with
                  | none => rw [hcur6] at h; exact Except.noConfusion h
                  | some f6 =>
                    rw [hcur6] at h
                    try dsimp only at h
                    cases h
                    exact patch_curExtends g g6 f6 (curLen g3) _ hx6 hcur6
                      (curLen_ge g g3 hx3)
      | forLoop cnt body ln =>
        simp only [genRun] at h
        split at h
        · exact Except.noConfusion h
        · rename_i f1 hcur1
          split at h
          · exact Except.noConfusion h
          · rename_i g6 hbody
            split at h
            · exact Except.noConfusion h
            · rename_i f11 hcur11
              cases h
              refine curExtends_trans _ _ _ ?_ (emit_curExtends _ _)
              refine patch_curExtends g _ f11 _ _ ?_ hcur11 ?_
              · refine curExtends_trans _ _ _ ?_ (emit_curExtends _ _)
                refine curExtends_trans _ _ _ ?_ (emit_addConst_curExtends _ _ _)
                refine curExtends_trans _ _ _ ?_ (emit_curExtends _ _)
                refine curExtends_trans _ _ _ ?_ (emit_addConst_curExtends _ _ _)
                refine curExtends_trans _ _ _ ?_ (emit_addConst_curExtends _ _ _)
                refine curExtends_trans _ _ _ ?_ (ih _ _ _ hbody)
                refine curExtends_trans _ _ _ ?_ (emit_curExtends _ _)
                refine curExtends_trans _ _ _ ?_ (emit_curExtends _ _)
                refine curExtends_trans _ _ _ ?_ (emit_addConst_curExtends _ _ _)
                refine curExtends_trans _ _ _ ?_ (emit_addConst_curExtends _ _ _)
                exact emit_addConst_curExtends _ _ _
              · intro f hf
                refine curLen_ge g _ ?_ f hf
                refine curExtends_trans _ _ _ ?_ (emit_curExtends _ _)
                refine curExtends_trans _ _ _ ?_ (emit_addConst_curExtends _ _ _)
                refine curExtends_trans _ _ _ ?_ (emit_addConst_curExtends _ _ _)
                exact emit_addConst_curExtends _ _ _

/-- Claim C9.  While-loop lowering (compiler.py generate_while_loop,
lines 859-874): when the generator successfully processes a while-loop
node with a current function holding `f.instructions`, the function
afterwards holds, in order and with nothing else added for the loop
construct, the condition's instructions `C` (whose first instruction sits
at the loop-head address, `f.instructions.length`), the body's
instructions `B`, one DROP of the leftover condition value, and one
unconditional JUMP whose operand is the loop-head address.  `C` and `B`
are pinned to the condition and body sub-compilations. -/
theorem c9_while_loop_lowering (fuel : ℕ) (cond : AST) (body : List AST)
    (ln : ℤ) (g gf : Gen) (f : Compiler.Function) (hcur : g.cur = some f)
    (h : genRun (fuel + 1) (.stmt (.whileLoop cond body ln)) g = .ok gf) :
    ∃ (C B : List Compiler.Instruction) (g1 g2 : Gen),
      generate_rpn_expression_node cond g = .ok g1 ∧
      g1.cur = some ⟨f.name, f.param_count, f.instructions ++ C⟩ ∧
      genRun fuel (.stmts body) g1 = .ok g2 ∧
      g2.cur = some ⟨f.name, f.param_count, f.instructions ++ C ++ B⟩ ∧
      gf.cur = some ⟨f.name, f.param_count,
        f.instructions ++ C ++ B ++
          [⟨.DROP, none, ln⟩, ⟨.JUMP, some (f.instructions.length : ℤ), ln⟩]⟩ := by
  simp only [genRun] at h
  rw [hcur] at h
  dsimp only at h
  cases hc : generate_rpn_expression_node cond g with
  | error e => rw [hc] at h; exact Except.noConfusion h
  | ok g1 =>
    rw [hc] at h
    dsimp only at h
    cases hb : genRun fuel (.stmts body) g1 with
    | error e => rw [hb] at h; exact Except.noConfusion h
    | ok g2 =>
      rw [hb] at h
      dsimp only at h
      cases h
      obtain ⟨C, hC⟩ :=
        (generate_rpn_expression_node_curExtends cond g g1 hc).1 f hcur
      obtain ⟨B, hB⟩ := (genRun_curExtends fuel (.stmts body) g1 g2 hb).1 _ hC
      refine ⟨C, B, g1, g2, rfl, hC, hb, ?_, ?_⟩
      · rw [hB]
      · simp [emit, hB]

/-- Claim C2.  Backpatch correctness for an if with both branches
(compiler.py generate_if_expr, lines 830-857): when the generator
successfully processes `ifExpr cond thn (some els)` with a current
function holding `f.instructions` (length `L`), the function afterwards
holds the condition code `C`, a JUMP_IF_FALSE whose operand is
`L + |C| + |T| + 2` — the absolute index of the first instruction of the
else block, immediately after the jump-over-else — the then code `T`, a
JUMP whose operand is `L + |C| + |T| + 2 + |E|` — the absolute index of
the first instruction after the else block — and the else code `E`.
Since `f.instructions` and the branch contents are arbitrary, the
resolution holds for nested and sequential conditionals alike. -/
theorem c2_if_else_backpatch (fuel : ℕ) (cond : AST) (thn els : List AST)
    (ln : ℤ) (g gf : Gen) (f : Compiler.Function) (hcur : g.cur = some f)
    (h : genRun (fuel + 1) (.stmt (.ifExpr cond thn (some els) ln)) g = .ok gf) :
    ∃ (C T E : List Compiler.Instruction) (g1 g3 : Gen),
      generate_rpn_expression_node cond g = .ok g1 ∧
      g1.cur = some ⟨f.name, f.param_count, f.instructions ++ C⟩ ∧
      genRun fuel (.stmts thn) (emit g1 ⟨.JUMP_IF_FALSE, some 0, ln⟩) = .ok g3 ∧
      g3.cur = some ⟨f.name, f.param_count,
        f.instructions ++ C ++ ⟨.JUMP_IF_FALSE, some 0, ln⟩ :: T⟩ ∧
      gf.cur = some ⟨f.name, f.param_count,
        f.instructions ++ C
          ++ ⟨.JUMP_IF_FALSE,
                some ((f.instructions.length + C.length + T.length + 2 : ℕ) : ℤ),
                ln⟩
            :: T
          ++ ⟨.JUMP,
                some ((f.instructions.length + C.length + T.length + 2
                        + E.length : ℕ) : ℤ),
                ln⟩
            :: E⟩ := by
  simp only [genRun] at h
  cases hc : generate_rpn_expression_node cond g with
  | error e => rw [hc] at h; exact Except.noConfusion h
  | ok g1 =>
    rw [hc] at h
    dsimp only at h
    obtain ⟨C, hC⟩ :=
      (generate_rpn_expression_node_curExtends cond g g1 hc).1 f hcur
    have hg2cur : (emit g1 ⟨.JUMP_IF_FALSE, some 0, ln⟩).cur =
        some ⟨f.name, f.param_count,
          (f.instructions ++ C) ++ [⟨.JUMP_IF_FALSE, some 0, ln⟩]⟩ := by
      simp [emit, hC]
    cases ht : genRun fuel (.stmts thn) (emit g1 ⟨.JUMP_IF_FALSE, some 0, ln⟩) with
    | error e => rw [ht] at h; exact Except.noConfusion h
    | ok g3 =>
      rw [ht] at h
      dsimp only at h
      obtain ⟨T, hT⟩ := (genRun_curExtends fuel (.stmts thn) _ g3 ht).1 _ hg2cur
      have hg4cur : (emit g3 ⟨.JUMP, some 0, ln⟩).cur =
          some ⟨f.name, f.param_count,
            ((f.instructions ++ C) ++ [⟨.JUMP_IF_FALSE, some 0, ln⟩] ++ T)
              ++ [⟨.JUMP, some 0, ln⟩]⟩ := by
        simp [emit, hT]
      rw [hg4cur] at h
      dsimp only at h
      have hlen1 : curLen g1 = (f.instructions ++ C).length := by
        simp [curLen, hC]
      have hpatch1 :
          setOperand
            (((f.instructions ++ C) ++ [⟨.JUMP_IF_FALSE, some 0, ln⟩] ++ T)
              ++ [⟨.JUMP, some 0, ln⟩])
            (curLen g1)
            ((((f.instructions ++ C) ++ [(⟨.JUMP_IF_FALSE, some 0, ln⟩ : Compiler.Instruction)] ++ T)
              ++ [(⟨.JUMP, some 0, ln⟩ : Compiler.Instruction)]).length : ℤ) =
          (f.instructions ++ C)
            ++ ⟨.JUMP_IF_FALSE,
                  some ((f.instructions.length + C.length + T.length + 2 : ℕ) : ℤ),
                  ln⟩
              :: (T ++ [⟨.JUMP, some 0, ln⟩]) := by
        rw [hlen1]
        rw [show ((f.instructions ++ C) ++ [⟨.JUMP_IF_FALSE, some 0, ln⟩] ++ T)
              ++ [(⟨.JUMP, some 0, ln⟩ : Compiler.Instruction)] =
            (f.instructions ++ C)
              ++ (⟨.JUMP_IF_FALSE, some 0, ln⟩ :: (T ++ [⟨.JUMP, some 0, ln⟩]))
            by simp]
        rw [show (f.instructions ++ C).length =
              (f.instructions ++ C).length + 0 by omega]
        rw [setOperand_append]
        rw [setOperand_cons_zero]
        congr 2
        simp
        omega
      rw [hpatch1] at h
      split at h
      · exact Except.noConfusion h
      rename_i g6 he
      obtain ⟨E, hE⟩ :=
        (genRun_curExtends fuel (.stmts els) _ g6 he).1 _ (by rfl)
      rw [hE] at h
      dsimp only at h
      have hlen3 : curLen g3 = f.instructions.length + C.length + T.length + 1 := by
        simp [curLen, hT]
        omega
      have hpatch2 :
            setOperand
              (((f.instructions ++ C)
                  ++ ⟨.JUMP_IF_FALSE,
                        some ((f.instructions.length + C.length + T.length + 2 : ℕ) : ℤ),
                        ln⟩
                    :: (T ++ [⟨.JUMP, some 0, ln⟩])) ++ E)
              (curLen g3)
              ((((f.instructions ++ C)
                  ++ (⟨.JUMP_IF_FALSE,
                        some ((f.instructions.length + C.length + T.length + 2 : ℕ) : ℤ),
                        ln⟩ : Compiler.Instruction)
                    :: (T ++ [(⟨.JUMP, some 0, ln⟩ : Compiler.Instruction)])) ++ E).length : ℤ) =
            f.instructions ++ C
              ++ ⟨.JUMP_IF_FALSE,
                    some ((f.instructions.length + C.length + T.length + 2 : ℕ) : ℤ),
                    ln⟩
                :: T
              ++ ⟨.JUMP,
                    some ((f.instructions.length + C.length + T.length + 2
                            + E.length : ℕ) : ℤ),
                    ln⟩
                :: E := by
          rw [hlen3]
          rw [show ((f.instructions ++ C)
                ++ ⟨.JUMP_IF_FALSE,
                      some ((f.instructions.length + C.length + T.length + 2 : ℕ) : ℤ),
                      ln⟩
                  :: (T ++ [⟨.JUMP, some 0, ln⟩])) ++ E =
              ((f.instructions ++ C)
                ++ ⟨.JUMP_IF_FALSE,
                      some ((f.instructions.length + C.length + T.length + 2 : ℕ) : ℤ),
                      ln⟩
                  :: T)
                ++ (⟨.JUMP, some 0, ln⟩ :: E) by simp]
          rw [show f.instructions.length + C.length + T.length + 1 =
              ((f.instructions ++ C)
                ++ ⟨.JUMP_IF_FALSE,
                      some ((f.instructions.length + C.length + T.length + 2 : ℕ) : ℤ),
                      ln⟩
                  :: T).length + 0 by simp; omega]
          rw [setOperand_append]
          rw [setOperand_cons_zero]
          simp
          omega
      rw [hpatch2] at h
      cases h
      exact ⟨C, T, E, g1, g3, rfl, hC, ht, by rw [hT]; simp, rfl⟩

/-- Witness for C2: compiling `if 1 then 2 else 3 end` (RPN condition
and bodies) into an empty `main` yields LOAD_CONST 0, JUMP_IF_FALSE 4,
LOAD_CONST 1, JUMP 5, LOAD_CONST 2 — the jump targets are the else-block
address and the after-else address. -/
theorem c2_if_else_backpatch_witness :
    ∃ (C T E : List Compiler.Instruction) (g1 g3 : Gen),
      generate_rpn_expression_node (.rpn (("1").toList) 1)
          (⟨[], [], some ⟨("main").toList, 0, []⟩, []⟩ : Gen) = .ok g1 ∧
      g1.cur = some ⟨("main").toList, 0, C⟩ ∧
      genRun 9 (.stmts [.rpn (("2").toList) 1])
          (emit g1 ⟨.JUMP_IF_FALSE, some 0, 1⟩) = .ok g3 ∧
      g3.cur = some ⟨("main").toList, 0, C ++ ⟨.JUMP_IF_FALSE, some 0, 1⟩ :: T⟩ ∧
      (⟨[.vInt 1, .vInt 2, .vInt 3], [], some ⟨("main").toList, 0,
          [⟨.LOAD_CONST, some 0, 1⟩, ⟨.JUMP_IF_FALSE, some 4, 1⟩,
           ⟨.LOAD_CONST, some 1, 1⟩, ⟨.JUMP, some 5, 1⟩,
           ⟨.LOAD_CONST, some 2, 1⟩]⟩, []⟩ : Gen).cur =
        some ⟨("main").toList, 0,
          C ++ ⟨.JUMP_IF_FALSE, some ((0 + C.length + T.length + 2 : ℕ) : ℤ), 1⟩ :: T
            ++ ⟨.JUMP, some ((0 + C.length + T.length + 2 + E.length : ℕ) : ℤ), 1⟩ :: E⟩ :=
  c2_if_else_backpatch 9 (.rpn (("1").toList) 1) [.rpn (("2").toList) 1]
    [.rpn (("3").toList) 1] 1 ⟨[], [], some ⟨("main").toList, 0, []⟩, []⟩
    ⟨[.vInt 1, .vInt 2, .vInt 3], [], some ⟨("main").toList, 0,
        [⟨.LOAD_CONST, some 0, 1⟩, ⟨.JUMP_IF_FALSE, some 4, 1⟩,
         ⟨.LOAD_CONST, some 1, 1⟩, ⟨.JUMP, some 5, 1⟩,
         ⟨.LOAD_CONST, some 2, 1⟩]⟩, []⟩
    ⟨("main").toList, 0, []⟩ rfl rfl

/-- Witness for C9: compiling `while 1 do 2 print end` into an empty
`main` yields LOAD_CONST 0, LOAD_CONST 1, PRINT, DROP, JUMP 0 — the
closing JUMP targets the loop head at address 0. -/
theorem c9_while_loop_lowering_witness :
    ∃ (C B : List Compiler.Instruction) (g1 g2 : Gen),
      generate_rpn_expression_node (.rpn (("1").toList) 1)
          (⟨[], [], some ⟨("main").toList, 0, []⟩, []⟩ : Gen) = .ok g1 ∧
      g1.cur = some ⟨("main").toList, 0, C⟩ ∧
      genRun 9 (.stmts [.rpn (("2 print").toList) 1]) g1 = .ok g2 ∧
      g2.cur = some ⟨("main").toList, 0, C ++ B⟩ ∧
      (⟨[.vInt 1, .vInt 2], [], some ⟨("main").toList, 0,
          [⟨.LOAD_CONST, some 0, 1⟩, ⟨.LOAD_CONST, some 1, 1⟩, ⟨.PRINT, none, 1⟩,
           ⟨.DROP, none, 1⟩, ⟨.JUMP, some 0, 1⟩]⟩, []⟩ : Gen).cur =
        some ⟨("main").toList, 0,
          C ++ B ++ [⟨.DROP, none, 1⟩, ⟨.JUMP, some 0, 1⟩]⟩ :=
  c9_while_loop_lowering 9 (.rpn (("1").toList) 1) [.rpn (("2 print").toList) 1] 1
    ⟨[], [], some ⟨("main").toList, 0, []⟩, []⟩
    ⟨[.vInt 1, .vInt 2], [], some ⟨("main").toList, 0,
        [⟨.LOAD_CONST, some 0, 1⟩, ⟨.LOAD_CONST, some 1, 1⟩, ⟨.PRINT, none, 1⟩,
         ⟨.DROP, none, 1⟩, ⟨.JUMP, some 0, 1⟩]⟩, []⟩
    ⟨("main").toList, 0, []⟩ rfl rfl

/-- Claim C1.  The spec says generate_code wraps top-level statements in
a `main` function whose final instruction is HALT.  The first half
holds: compiling the program `5 3 + print` produces a `main` entry with
the statement code.  The second half does not: `main`'s instruction
list ends in PRINT, not HALT, because compiler.py line 752 appends the
HALT to the CodeGenerator's own `self.instructions` list (here
`g.instructions`), which belongs to no function and is never serialized;
`serialize` only walks `self.functions`. -/
theorem c1_main_function_halt :
    ∃ g : Gen,
      generate_code 100 (.program [.rpn (("5 3 + print").toList) 1]) = .ok g ∧
      dictLookup g.functions (("main").toList) =
        some ⟨("main").toList, 0,
          [⟨.LOAD_CONST, some 0, 1⟩, ⟨.LOAD_CONST, some 1, 1⟩,
           ⟨.ADD, none, 1⟩, ⟨.PRINT, none, 1⟩]⟩ ∧
      (dictLookup g.functions (("main").toList)).map
          (fun f => f.instructions.getLast?.map (fun i => i.opcode)) =
        some (some Opcode.PRINT) ∧
      Opcode.PRINT ≠ Opcode.HALT ∧
      g.instructions = [⟨.HALT, none, 0⟩] :=
  ⟨_, rfl, rfl, rfl, by decide, rfl⟩

end PostC
